import Mathlib

/-!
# Verification of `encryptedfs/add.go`

A shallow embedding of `Xcopy` (incremental, timestamp-aware mirroring of an
`fs.FS` tree into the real file system) and of `FormatFileInfo`, followed by
the theorems about them.

Modelling conventions
* Go strings are lists of characters (`Str`).  Only the ASCII characters
  `/`, `\` and `.` are ever inspected, so a character list and a byte list
  behave alike.
* Instants (`time.Time`) are integers; `Time.Compare` is integer comparison.
* The destination file system (package `os`) is an interface `OS σ` over an
  arbitrary state type `σ`; every call returns the new state and its result.
* The source `fs.FS` is a record `SrcFS`: the `fs.FileInfo` that `fs.Stat`
  returns for each path (possibly nil), the result of reading it, and the
  sequence of callback invocations that `fs.WalkDir` makes from a given root.
* A call ends in one of three ways (`Ret`): it returns nil, it returns an
  error, or it panics on a method call on a nil `fs.FileInfo`.
-/

namespace Encryptedfs

/-! ## Strings and paths -/

/-- A Go string. -/
abbrev Str := List Char

/-- The Go call `strings.ReplaceAll(s, "\\", "/")`. -/
def replaceBackslash (s : Str) : Str :=
  s.map (fun c => if c = '\\' then '/' else c)

/-- The Go call `strings.Count(s, "/")`. -/
def countSlash (s : Str) : Nat :=
  s.count '/'

/-- The Go call `strings.Split(s, "/")`; the empty string gives one empty segment. -/
def splitSlash : Str → List Str
  | [] => [[]]
  | c :: cs =>
    if c = '/' then [] :: splitSlash cs
    else match splitSlash cs with
      | h :: t => (c :: h) :: t
      | [] => [[c]]

/-- The Go call `strings.Join(elems, "/")`. -/
def joinSlash : List Str → Str
  | [] => []
  | [e] => e
  | e :: es => e ++ '/' :: joinSlash es

/-- The Go call `strings.TrimPrefix(s, pre)`. -/
def trimPrefix (s pre : Str) : Str :=
  if pre.isPrefixOf s then s.drop pre.length else s

/-- One step of the element loop of `filepath.Clean` on a Unix host, on the
stack `acc` of elements kept so far (most recent first): an empty element and
`.` are dropped, `..` removes the previous real element when there is one and
is otherwise kept (relative path) or dropped (rooted path), any other element
is kept. -/
def cleanStep (rooted : Bool) (acc : List Str) (e : Str) : List Str :=
  if e = [] ∨ e = ['.'] then acc
  else if e = ['.', '.'] then
    match acc with
    | a :: acc1 => if a = ['.', '.'] then e :: acc else acc1
    | [] => if rooted then [] else [e]
  else e :: acc

/-- The Go call `filepath.Clean(path)` on a Unix host. -/
def filepathClean (path : Str) : Str :=
  match path with
  | [] => ['.']
  | c :: _ =>
    let rooted : Bool := c = '/'
    let kept := ((splitSlash path).foldl (cleanStep rooted) []).reverse
    if rooted then '/' :: joinSlash kept
    else if kept = [] then ['.'] else joinSlash kept

/-- The Go call `filepath.Join(elem...)` on a Unix host: leading empty
elements are skipped, the rest is joined with the separator and cleaned; the
result is empty when every element is empty. -/
def filepathJoin : List Str → Str
  | [] => []
  | e :: es => if e = [] then filepathJoin es else filepathClean (joinSlash (e :: es))

/-! ## Path remapping of `Xcopy` (lines 49-60) -/

/-- The source prefix after lines 49-52: the empty prefix becomes `.`, then
backslashes become slashes. -/
def normSrc (src : Str) : Str :=
  replaceBackslash (if src = [] then ['.'] else src)

/-- The value of `srcLen` (line 53). -/
def srcLenOf (src : Str) : Nat :=
  countSlash (normSrc src)

/-- The value of `dirs` (line 54). -/
def dirsOf (root trg : Str) : List Str :=
  replaceBackslash root :: splitSlash (replaceBackslash trg)

/-- The destination path of a walked path `unix` (line 59). -/
def destPath (src root trg unix : Str) : Str :=
  filepathJoin (dirsOf root trg ++ (splitSlash unix).drop (srcLenOf src))

/-- The key under which a walked path is recorded in `fns` (line 60). -/
def relKey (src unix : Str) : Str :=
  trimPrefix unix (normSrc src ++ ['/'])


/-! ## The world around `Xcopy` -/

/-- An instant (`time.Time`); `Time.Compare` is the comparison of integers. -/
abbrev Time := Int

/-- File contents. -/
abbrev Bytes := List UInt8

/-- Error values.  `notExist` is an error for which `os.IsNotExist` holds,
`other code` is any other error returned by package `os` or by the source
`fs.FS`, and `sizeMismatch` is the error built by `fmt.Errorf` at line 94.
None of them is `fs.SkipDir` or `fs.SkipAll`. -/
inductive Err where
  | notExist
  | other (code : Nat)
  | sizeMismatch (path : Str) (l s : Int)
  deriving DecidableEq, Repr

/-- The Go call `os.IsNotExist(err)` on a non-nil error. -/
def Err.isNotExist : Err → Bool
  | .notExist => true
  | _ => false

/-- The part of an `fs.FileInfo` that `Xcopy` reads. -/
structure FileInfo where
  modTime : Time
  size : Int
  deriving DecidableEq, Repr

/-- One invocation of the callback by `fs.WalkDir`: the path, `d.IsDir()`, and
the error argument (`none` for nil). -/
structure WalkCall where
  unix : Str
  isDir : Bool
  walkErr : Option Err
  deriving DecidableEq, Repr

/-- The read-only source `bin`.  `stat unix` is the `fs.FileInfo` returned by
`fs.Stat(bin, unix)`, `none` for the nil value it returns when it fails (the
code discards the error result); `readFile` is `fs.ReadFile(bin, unix)`;
`walk root` is the sequence of callback invocations
`fs.WalkDir(bin, root, fn)` makes while `fn` returns nil. -/
structure SrcFS where
  stat : Str → Option FileInfo
  readFile : Str → Except Err Bytes
  walk : Str → List WalkCall

/-- The destination file system over a state `σ`: `os.Stat`, `os.MkdirAll`,
`os.WriteFile` and `os.Chtimes` (modification time argument only). -/
structure OS (σ : Type) where
  stat : σ → Str → Except Err FileInfo
  mkdirAll : σ → Str → σ × Option Err
  writeFile : σ → Str → Bytes → σ × Option Err
  chtimes : σ → Str → Time → σ × Option Err

/-- A call that `Xcopy` made to read the source or to change the destination. -/
inductive Action where
  | mkdirAll (path : Str)
  | readFile (unix : Str)
  | writeFile (path : Str) (bytes : Bytes)
  | chtimes (path : Str) (mtime : Time)
  deriving DecidableEq, Repr

/-- The arguments of one `fmt.Sprintln` at line 98, that is one line of the
report: `ts` is `none` for the empty string and the previous modification time
and size of the destination otherwise. -/
structure ReportLine where
  srcModTime : Time
  srcSize : Int
  unix : Str
  ts : Option (Time × Int)
  path : Str
  deriving DecidableEq, Repr

/-- How a call of the callback, and how `Xcopy`, ends: it returns nil, it
returns the error `e`, or it panics because a method is called on the nil
`fs.FileInfo` of a source entry whose `fs.Stat` failed. -/
inductive Ret where
  | nil
  | err (e : Err)
  | panic
  deriving DecidableEq, Repr

/-- The result of a call of package `os` that returns only an error. -/
def Ret.ofErr : Option Err → Ret
  | none => Ret.nil
  | some e => Ret.err e

/-- The assignment `m[k] = v` on a map kept as a list of pairs with distinct keys. -/
def mapSet (m : List (Str × Str)) (k v : Str) : List (Str × Str) :=
  (k, v) :: m.filter (fun kv => decide (kv.1 ≠ k))

/-- The variables shared by the callback: the destination file system, the
map `fns`, the report (one element per line) and the record of the calls made. -/
structure XState (σ : Type) where
  world : σ
  fns : List (Str × Str)
  report : List ReportLine
  log : List Action

/-- The callback `write` of `Xcopy` (lines 55-100).  `head` is the outcome of
lines 62-69: the callback ends there (a panic on `eInfo.ModTime()` when the
destination exists and `eInfo` is nil, or `return nil` for a fresh
destination), or it goes on with the values of `ts` and `err`. -/
def write {σ : Type} (os : OS σ) (bin : SrcFS) (src root trg : Str)
    (st : XState σ) (c : WalkCall) : XState σ × Ret :=
  match c.walkErr with
  | some _ => (st, Ret.nil)
  | none =>
    let path := destPath src root trg c.unix
    let st := { st with fns := mapSet st.fns (relKey src c.unix) path }
    let eInfo := bin.stat c.unix
    let head : Except Ret (Option (Time × Int) × Option Err) :=
      match os.stat st.world path with
      | .ok fInfo =>
        match eInfo with
        | none => .error Ret.panic
        | some ei =>
          if fInfo.modTime ≥ ei.modTime then .error Ret.nil
          else .ok (some (fInfo.modTime, fInfo.size), none)
      | .error e => .ok (none, some e)
    match head with
    | .error r => (st, r)
    | .ok (ts, err) =>
      if c.isDir then
        match err with
        | none => (st, Ret.nil)
        | some e =>
          if e.isNotExist then
            let r := os.mkdirAll st.world path
            ({ st with world := r.1, log := st.log ++ [Action.mkdirAll path] }, Ret.ofErr r.2)
          else (st, Ret.err e)
      else
        let st := { st with log := st.log ++ [Action.readFile c.unix] }
        match bin.readFile c.unix with
        | .error e => (st, Ret.err e)
        | .ok bytes =>
          let r := os.writeFile st.world path bytes
          let st := { st with world := r.1, log := st.log ++ [Action.writeFile path bytes] }
          match r.2 with
          | some e => (st, Ret.err e)
          | none =>
            match os.stat st.world path with
            | .error e => (st, Ret.err e)
            | .ok fi =>
              let s := fi.size
              let l : Int := bytes.length
              if l ≠ s then (st, Ret.err (Err.sizeMismatch path l s))
              else
                match eInfo with
                | none => (st, Ret.panic)
                | some ei =>
                  let r2 := os.chtimes st.world path ei.modTime
                  ({ world := r2.1,
                     fns := st.fns,
                     report := st.report ++ [⟨ei.modTime, ei.size, c.unix, ts, path⟩],
                     log := st.log ++ [Action.chtimes path ei.modTime] }, Ret.nil)

/-- The initial value of the shared variables of `Xcopy` on the destination `w`. -/
def initState {σ : Type} (w : σ) : XState σ :=
  { world := w, fns := [], report := [], log := [] }

/-- The driver `fs.WalkDir`: the callback is run on each invocation in turn;
the first non-nil error stops the walk and is returned, and a panic of the
callback ends the walk as well. -/
def walkDir {σ : Type} (fn : XState σ → WalkCall → XState σ × Ret) :
    XState σ → List WalkCall → XState σ × Ret
  | st, [] => (st, Ret.nil)
  | st, c :: cs =>
    match fn st c with
    | (st1, Ret.nil) => walkDir fn st1 cs
    | (st1, r) => (st1, r)

/-- The function `Xcopy` run on the destination state `w`: the final state
(destination, `fns`, `report`, calls made) and how it ends: `Ret.nil` and
`Ret.err e` are the values of `err` it returns, and `Ret.panic` means that it
does not return. -/
def Xcopy {σ : Type} (os : OS σ) (w : σ) (bin : SrcFS) (src root trg : Str) :
    XState σ × Ret :=
  walkDir (write os bin src root trg) (initState w) (bin.walk (normSrc src))

/-- Whether a call creates a directory. -/
def Action.isMkdir : Action → Bool
  | .mkdirAll _ => true
  | _ => false

/-- Whether a call writes a file. -/
def Action.isWrite : Action → Bool
  | .writeFile _ _ => true
  | _ => false

/-- Whether a call sets a modification time. -/
def Action.isChtimes : Action → Bool
  | .chtimes _ _ => true
  | _ => false


/-- The calls on which `fs.WalkDir` invoked the callback: every call up to and
including the first one for which the callback did not return nil. -/
def visited {σ : Type} (fn : XState σ → WalkCall → XState σ × Ret) :
    XState σ → List WalkCall → List WalkCall
  | _, [] => []
  | st, c :: cs =>
    match fn st c with
    | (st1, Ret.nil) => c :: visited fn st1 cs
    | (_, _) => [c]

/-- The paths of the entries that `Xcopy` visited without a walker error. -/
def visitedPaths {σ : Type} (os : OS σ) (w : σ) (bin : SrcFS) (src root trg : Str) : List Str :=
  ((visited (write os bin src root trg) (initState w)
      (bin.walk (normSrc src))).filter (fun c => c.walkErr.isNone)).map (fun c => c.unix)

/-! ## Properties of a destination file system -/

/-- The reasons for which the callback returns an error `e` on the call `c` in
the state `st`: the destination of a directory could not be examined (an error
other than not-exist), a directory could not be created, the source file could
not be read, the destination could not be written, it could not be examined
after the write, or the size recorded differs from the number of bytes written. -/
def Cause {σ : Type} (os : OS σ) (bin : SrcFS) (src root trg : Str)
    (st : XState σ) (c : WalkCall) (e : Err) : Prop :=
  let path := destPath src root trg c.unix
  c.walkErr = none ∧
  ((c.isDir = true ∧ os.stat st.world path = .error e ∧ e.isNotExist = false) ∨
   (c.isDir = true ∧ os.stat st.world path = .error Err.notExist ∧
      (os.mkdirAll st.world path).2 = some e) ∨
   (c.isDir = false ∧ bin.readFile c.unix = .error e) ∨
   (c.isDir = false ∧ ∃ bytes, bin.readFile c.unix = .ok bytes ∧
      ((os.writeFile st.world path bytes).2 = some e ∨
       ((os.writeFile st.world path bytes).2 = none ∧
         (os.stat (os.writeFile st.world path bytes).1 path = .error e ∨
          ∃ fi, os.stat (os.writeFile st.world path bytes).1 path = .ok fi ∧
            (bytes.length : Int) ≠ fi.size ∧
            e = Err.sizeMismatch path bytes.length fi.size)))))

/-! ## Concrete file systems -/

/-- An in-memory destination: a table from path to metadata (the most recent
binding of a path first) and a clock. -/
structure MemFS where
  nodes : List (Str × FileInfo)
  clock : Time
  deriving DecidableEq, Repr

/-- The metadata of a path in an in-memory destination. -/
def MemFS.find (w : MemFS) (p : Str) : Option FileInfo :=
  (w.nodes.find? (fun kv => decide (kv.1 = p))).map (fun kv => kv.2)

/-- The in-memory destination as an `OS`.  A written file records
`recorded n` as its size when `n` bytes were written: the identity for a sound
file system, another function for one that loses data. -/
def memOS (recorded : Nat → Int) : OS MemFS where
  stat w p :=
    match w.find p with
    | some i => .ok i
    | none => .error Err.notExist
  mkdirAll w p :=
    match w.find p with
    | some _ => (w, none)
    | none => ({ nodes := (p, ⟨w.clock, 0⟩) :: w.nodes, clock := w.clock + 1 }, none)
  writeFile w p b :=
    ({ nodes := (p, ⟨w.clock, recorded b.length⟩) :: w.nodes, clock := w.clock + 1 }, none)
  chtimes w p t :=
    match w.find p with
    | some i => ({ w with nodes := (p, { i with modTime := t }) :: w.nodes }, none)
    | none => (w, some Err.notExist)

/-- A destination on which nothing can be examined: `os.Stat` fails with an
error other than not-exist (permission denied). -/
def deniedOS : OS Unit where
  stat _ _ := .error (Err.other 13)
  mkdirAll w _ := (w, none)
  writeFile w _ _ := (w, none)
  chtimes w _ _ := (w, none)

/-- A source holding the directory `b` with the file `b/c.txt` of three bytes. -/
def demoBin : SrcFS where
  stat p := if p = "b/c.txt".toList then some ⟨100, 3⟩ else some ⟨50, 0⟩
  readFile p := if p = "b/c.txt".toList then .ok [1, 2, 3] else .error (Err.other 21)
  walk r :=
    if r = "b".toList then [⟨"b".toList, true, none⟩, ⟨"b/c.txt".toList, false, none⟩]
    else []

/-- A source holding the directory `b` with a file of the same name, `b/b`. -/
def nestedBin : SrcFS where
  stat p := if p = "b/b".toList then some ⟨100, 1⟩ else some ⟨50, 0⟩
  readFile p := if p = "b/b".toList then .ok [7] else .error (Err.other 21)
  walk r :=
    if r = "b".toList then [⟨"b".toList, true, none⟩, ⟨"b/b".toList, false, none⟩]
    else []

/-- An empty in-memory destination at time 1000. -/
def emptyMem : MemFS := { nodes := [], clock := 1000 }

/-! ## `FormatFileInfo` (lines 118-159) -/

/-- The civil date and clock reading of an instant, as `Time.Format` obtains them. -/
structure DateTime where
  year : Int
  month : Nat
  day : Nat
  hour : Nat
  minute : Nat
  second : Nat
  deriving DecidableEq, Repr

/-- The methods of an `fs.FileInfo` that `FormatFileInfo` calls: `Name()`,
`Mode().String()`, `Size()` (an `int64`), `ModTime()` and `IsDir()`. -/
structure EntryInfo where
  name : Str
  mode : Str
  size : Int
  modTime : DateTime
  isDir : Bool
  deriving DecidableEq, Repr

/-- The Go conversion `byte(n)` followed by reading the byte as a character. -/
def byteChar (n : Nat) : Char :=
  Char.ofNat (n % 256)

/-- Addition of `uint64` values. -/
def u64add (a b : Nat) : Nat :=
  (a + b) % 2 ^ 64

/-- Subtraction of `uint64` values. -/
def u64sub (a b : Nat) : Nat :=
  (a + 2 ^ 64 - b % 2 ^ 64) % 2 ^ 64

/-- Multiplication of `uint64` values. -/
def u64mul (a b : Nat) : Nat :=
  (a * b) % 2 ^ 64

/-- The value of `usize` after lines 130-137: `uint64(size)` for a
non-negative size, and `uint64(-size)` otherwise, where the negation is taken
in `int64` and the conversion keeps the bit pattern, so that the result is
`-size` modulo `2 ^ 64`. -/
def usizeOf (size : Int) : Nat :=
  if size ≥ 0 then (size % 2 ^ 64).toNat else ((-size) % 2 ^ 64).toNat

/-- The digit loop and the slice `buf[i:]` (lines 139-147).  The first argument
is `i + 1`, the number of bytes of `buf` not yet written, so that `0` stands
for the index `-1`, where `buf[i]` is out of range and the result is `none`;
`filled` is `buf[i+1:]`. -/
def digitLoop : Nat → Nat → Str → Option Str
  | 0, _, _ => none
  | k + 1, usize, filled =>
    if usize ≥ 10 then
      let q := usize / 10
      digitLoop k q (byteChar (u64sub (u64add 48 usize) (u64mul q 10)) :: filled)
    else some (byteChar (u64add 48 usize) :: filled)

/-- The Go helper `appendInt(b, x, width)` of package `time`: the sign, then
the decimal digits of the magnitude, padded with zeros to `width`. -/
def appendInt (x : Int) (width : Nat) : Str :=
  let u := x.natAbs
  (if x < 0 then ['-'] else []) ++
    List.replicate (width - (Nat.toDigits 10 u).length) '0' ++ Nat.toDigits 10 u

/-- The Go call `t.Format(time.DateTime)`, the layout `2006-01-02 15:04:05`. -/
def formatDateTime (t : DateTime) : Str :=
  appendInt t.year 4 ++ '-' :: appendInt t.month 2 ++ '-' :: appendInt t.day 2 ++
    ' ' :: appendInt t.hour 2 ++ ':' :: appendInt t.minute 2 ++ ':' :: appendInt t.second 2

/-- The function `FormatFileInfo`; `none` when an index is out of range. -/
def FormatFileInfo (info : EntryInfo) : Option Str :=
  let name := info.name
  let b := info.mode
  let b := b ++ [' ']
  let size := info.size
  let b := if size ≥ 0 then b else b ++ ['-']
  let usize := usizeOf size
  match digitLoop 20 usize [] with
  | none => none
  | some digits =>
    let b := b ++ digits
    let b := b ++ [' ']
    let b := b ++ formatDateTime info.modTime
    let b := b ++ [' ']
    let b := b ++ name
    let b := if info.isDir then b ++ ['/'] else b
    some b

/-- The signed decimal numeral of an integer. -/
def decimal (n : Int) : Str :=
  if n < 0 then '-' :: Nat.toDigits 10 n.natAbs else Nat.toDigits 10 n.natAbs

/-- The entry of the documentation comment: `hello.txt`, 100 bytes, mode
`-rw-r--r--`, modified on January 1, 1970 at noon. -/
def helloInfo (isDir : Bool) : EntryInfo where
  name := "hello.txt".toList
  mode := "-rw-r--r--".toList
  size := 100
  modTime := ⟨1970, 1, 1, 12, 0, 0⟩
  isDir := isDir

/-- A destination that already holds `/tmp/b/c.txt` with the modification time
of the source file `b/c.txt` of `demoBin` (100) and another size. -/
def sameTimeMem : MemFS :=
  { nodes := [("/tmp/b/c.txt".toList, ⟨100, 999⟩)], clock := 1000 }

/-- The call of the walker for the file `b/c.txt`. -/
def fileCall : WalkCall := ⟨"b/c.txt".toList, false, none⟩

/-- The call of the walker for the directory `b`. -/
def dirCall : WalkCall := ⟨"b".toList, true, none⟩

/-! ## Lemmas on splitting -/

theorem splitSlash_ne_nil (s : Str) : splitSlash s ≠ [] := by
  cases s with
  | nil => simp [splitSlash]
  | cons c cs =>
    unfold splitSlash
    split
    · simp
    · split <;> simp

theorem splitSlash_append_slash (a b : Str) :
    splitSlash (a ++ '/' :: b) = splitSlash a ++ splitSlash b := by
  induction a with
  | nil => simp [splitSlash]
  | cons c cs ih =>
    by_cases hc : c = '/'
    · simp [splitSlash, hc, ih]
    · have h1 : splitSlash (c :: cs ++ '/' :: b) =
          match splitSlash (cs ++ '/' :: b) with
          | h :: t => (c :: h) :: t
          | [] => [[c]] := by
        simp [splitSlash, hc]
      have h2 : splitSlash (c :: cs) =
          match splitSlash cs with
          | h :: t => (c :: h) :: t
          | [] => [[c]] := by
        simp [splitSlash, hc]
      rw [h1, h2, ih]
      cases hs : splitSlash cs with
      | nil => exact absurd hs (splitSlash_ne_nil cs)
      | cons h t => simp

theorem length_splitSlash (s : Str) : (splitSlash s).length = countSlash s + 1 := by
  induction s with
  | nil => simp [splitSlash, countSlash]
  | cons c cs ih =>
    by_cases hc : c = '/'
    · subst hc
      simp [splitSlash, countSlash] at ih ⊢
      exact ih
    · have h2 : splitSlash (c :: cs) =
          match splitSlash cs with
          | h :: t => (c :: h) :: t
          | [] => [[c]] := by
        simp [splitSlash, hc]
      rw [h2]
      cases hs : splitSlash cs with
      | nil => exact absurd hs (splitSlash_ne_nil cs)
      | cons h t =>
        rw [hs] at ih
        have hne : (c == '/') = false := by simpa using hc
        simp [countSlash, List.count_cons, hne] at ih ⊢
        exact ih

theorem drop_length_pred_append (l m : List Str) (h : l ≠ []) :
    (l ++ m).drop (l.length - 1) = l.getLast h :: m := by
  induction l with
  | nil => exact absurd rfl h
  | cons a t ih =>
    cases t with
    | nil => simp
    | cons b t2 =>
      have := ih (by simp)
      simp at this ⊢
      exact this

theorem countSlash_eq_zero (s : Str) (h : '/' ∉ s) : countSlash s = 0 := by
  simp [countSlash, List.count_eq_zero, h]

theorem replaceBackslash_id (s : Str) (h : '\\' ∉ s) : replaceBackslash s = s := by
  induction s with
  | nil => rfl
  | cons c cs ih =>
    simp at h
    have hc : ¬ c = '\\' := fun e => h.1 e.symm
    simp [replaceBackslash, hc] at ih ⊢
    exact ih h.2

/-! ## Path remapping -/

theorem srcLenOf_succ (s : Str) (h : s ≠ []) :
    srcLenOf s + 1 = (splitSlash (replaceBackslash s)).length := by
  simp [srcLenOf, normSrc, h, length_splitSlash]

/-- C1 (as amended): for a non-empty source prefix `s` and a walked path
`s + "/" + rest`, the destination is the native join of the root, the segments
of `trg`, the last segment of `s` and the segments of `rest`; the number of
leading segments stripped is the number of separators in `s`, one less than
the number of its segments. -/
theorem xcopy_strips_all_but_last_segment (s rest root trg : Str) (h : s ≠ []) :
    destPath s root trg (replaceBackslash s ++ '/' :: rest) =
        filepathJoin (replaceBackslash root :: splitSlash (replaceBackslash trg) ++
          (splitSlash (replaceBackslash s)).getLast (splitSlash_ne_nil _) :: splitSlash rest) ∧
      srcLenOf s + 1 = (splitSlash (replaceBackslash s)).length := by
  refine ⟨?_, srcLenOf_succ s h⟩
  have hl := srcLenOf_succ s h
  have hd : srcLenOf s = (splitSlash (replaceBackslash s)).length - 1 := by omega
  unfold destPath dirsOf
  rw [splitSlash_append_slash, hd, drop_length_pred_append _ _ (splitSlash_ne_nil _)]

/-- Witness of C1 (as amended): source `a\b`, target `d`, root `/tmp`, walked
path `a/b/c.txt`. -/
theorem xcopy_strips_all_but_last_segment_witness :
    "a\\b".toList ≠ [] ∧
      destPath "a\\b".toList "/tmp".toList "d".toList "a/b/c.txt".toList
        = "/tmp/d/b/c.txt".toList := by
  refine ⟨by decide, ?_⟩
  have h := (xcopy_strips_all_but_last_segment "a\\b".toList "c.txt".toList
    "/tmp".toList "d".toList (by decide)).1
  have e : replaceBackslash "a\\b".toList ++ '/' :: "c.txt".toList = "a/b/c.txt".toList := by
    decide
  rw [e] at h
  rw [h]
  decide

/-- C1 (counterexample): with source `b`, target empty and root `/tmp`, the
walked path `b/c.txt` is sent to `/tmp/b/c.txt`, which is neither `/tmp/c.txt`
nor the join of the root, the segments of the target and the segments of
`c.txt`. -/
theorem xcopy_subtree_name_not_stripped :
    destPath "b".toList "/tmp".toList "".toList "b/c.txt".toList = "/tmp/b/c.txt".toList ∧
      destPath "b".toList "/tmp".toList "".toList "b/c.txt".toList ≠ "/tmp/c.txt".toList ∧
      destPath "b".toList "/tmp".toList "".toList ("b".toList ++ '/' :: "c.txt".toList) ≠
        filepathJoin (replaceBackslash "/tmp".toList ::
          splitSlash (replaceBackslash "".toList) ++ splitSlash "c.txt".toList) := by
  decide

/-- C2: for a source prefix without a separator (slash or backslash), the
destination of every walked path `p` is the native join of the root, the
segments of `trg` and all the segments of `p`, root and `trg` being taken with
backslashes turned into slashes; the three mappings of the documentation hold. -/
theorem xcopy_keeps_all_segments :
    (∀ src root trg p : Str, '/' ∉ src → '\\' ∉ src →
      destPath src root trg p =
        filepathJoin (replaceBackslash root :: splitSlash (replaceBackslash trg) ++
          splitSlash p)) ∧
    destPath "".toList "/tmp".toList "".toList "a/b.txt".toList = "/tmp/a/b.txt".toList ∧
    destPath "b".toList "/tmp".toList "d".toList "b/c.txt".toList = "/tmp/d/b/c.txt".toList ∧
    destPath "b".toList "/tmp".toList "".toList "b/c".toList = "/tmp/b/c".toList := by
  refine ⟨?_, by decide, by decide, by decide⟩
  intro src root trg p hs hb
  have h0 : srcLenOf src = 0 := by
    unfold srcLenOf normSrc
    apply countSlash_eq_zero
    by_cases he : src = []
    · simp [he, replaceBackslash]
    · simp only [he, if_false]
      rw [replaceBackslash_id src hb]
      exact hs
  simp [destPath, dirsOf, h0]

/-- Witness of C2: the root prefix `.` with root `/tmp` and target `d` sends
`a/b.txt` to `/tmp/d/a/b.txt`. -/
theorem xcopy_keeps_all_segments_witness :
    '/' ∉ ".".toList ∧ '\\' ∉ ".".toList ∧
      destPath ".".toList "/tmp".toList "d".toList "a/b.txt".toList
        = "/tmp/d/a/b.txt".toList := by
  refine ⟨by decide, by decide, ?_⟩
  rw [xcopy_keeps_all_segments.1 ".".toList "/tmp".toList "d".toList "a/b.txt".toList
    (by decide) (by decide)]
  decide

/-! ## `FormatFileInfo` -/

theorem digitChar_eq_byteChar (d : Nat) (h : d < 10) :
    Nat.digitChar d = byteChar (48 + d) := by
  interval_cases d <;> rfl

theorem u64_digit (u : Nat) (h : u + 48 < 2 ^ 64) :
    u64sub (u64add 48 u) (u64mul (u / 10) 10) = 48 + u % 10 := by
  unfold u64sub u64add u64mul
  norm_num at h ⊢
  omega

theorem u64_last (u : Nat) (h : u < 10) : u64add 48 u = 48 + u % 10 := by
  unfold u64add
  norm_num
  omega

theorem digitLoop_eq_toDigitsCore (k : Nat) :
    ∀ (fuel u : Nat) (ds : Str), u < 10 ^ (k + 1) → u < fuel → u + 48 < 2 ^ 64 →
      digitLoop (k + 1) u ds = some (Nat.toDigitsCore 10 fuel u ds) := by
  induction k with
  | zero =>
    intro fuel u ds hk hf _
    have hu : u < 10 := by simpa using hk
    cases fuel with
    | zero => omega
    | succ f =>
      have hq : u / 10 = 0 := by omega
      simp [digitLoop, Nat.toDigitsCore, hq, Nat.not_le.mpr hu, u64_last u hu,
        digitChar_eq_byteChar (u % 10) (by omega)]
  | succ k ih =>
    intro fuel u ds hk hf h64
    cases fuel with
    | zero => omega
    | succ f =>
      by_cases hu : u < 10
      · have hq : u / 10 = 0 := by omega
        simp [digitLoop, Nat.toDigitsCore, hq, Nat.not_le.mpr hu, u64_last u hu,
          digitChar_eq_byteChar (u % 10) (by omega)]
      · have hq : u / 10 ≠ 0 := by omega
        have hge : u ≥ 10 := by omega
        have hk2 : u / 10 < 10 ^ (k + 1) := by
          rw [pow_succ] at hk
          omega
        have hrec := ih f (u / 10)
          (byteChar (u64sub (u64add 48 u) (u64mul (u / 10) 10)) :: ds) hk2 (by omega) (by omega)
        rw [digitLoop]
        simp only [hge, if_true]
        rw [hrec, u64_digit u h64]
        simp [Nat.toDigitsCore, hq, digitChar_eq_byteChar (u % 10) (by omega)]

theorem usizeOf_eq_natAbs (size : Int) (hlo : -2 ^ 63 ≤ size) (hhi : size < 2 ^ 63) :
    usizeOf size = size.natAbs := by
  unfold usizeOf
  norm_num at hlo hhi ⊢
  split <;> omega

/-- C9: for every entry whose size is a 64-bit signed integer,
`FormatFileInfo` returns (no index of the 20-byte buffer being out of range)
the mode string, a space, the signed decimal numeral of the size, a space, the
modification time in the layout `2006-01-02 15:04:05`, a space and the name,
followed by `/` exactly when the entry is a directory; the entry `hello.txt` of
the documentation is formatted as stated, as a file and as a directory, and
the most negative size is printed with its full magnitude. -/
theorem formatFileInfo_exact :
    (∀ info : EntryInfo, -2 ^ 63 ≤ info.size → info.size < 2 ^ 63 →
      FormatFileInfo info =
        some (info.mode ++ ' ' :: decimal info.size ++ ' ' :: formatDateTime info.modTime ++
          ' ' :: info.name ++ (if info.isDir then ['/'] else []))) ∧
    FormatFileInfo (helloInfo false) =
      some "-rw-r--r-- 100 1970-01-01 12:00:00 hello.txt".toList ∧
    FormatFileInfo (helloInfo true) =
      some "-rw-r--r-- 100 1970-01-01 12:00:00 hello.txt/".toList ∧
    FormatFileInfo { helloInfo false with size := -2 ^ 63 } =
      some "-rw-r--r-- -9223372036854775808 1970-01-01 12:00:00 hello.txt".toList := by
  refine ⟨?_, by decide, by decide, by decide⟩
  intro info hlo hhi
  have hu := usizeOf_eq_natAbs info.size hlo hhi
  have hb : info.size.natAbs ≤ 2 ^ 63 := by
    norm_num at hlo hhi ⊢
    omega
  have hd : digitLoop 20 (usizeOf info.size) [] = some (Nat.toDigits 10 info.size.natAbs) := by
    rw [hu]
    exact digitLoop_eq_toDigitsCore 19 (info.size.natAbs + 1) info.size.natAbs []
      (by norm_num at hb ⊢; omega) (by omega) (by norm_num at hb ⊢; omega)
  unfold FormatFileInfo
  simp only [hd]
  by_cases hneg : info.size < 0
  · have h1 : ¬ info.size ≥ 0 := by omega
    cases hdir : info.isDir <;> simp [decimal, hneg, h1]
  · have h1 : info.size ≥ 0 := by omega
    cases hdir : info.isDir <;> simp [decimal, hneg, h1]

/-- Witness of C9: the entry of the documentation with the size `-42`. -/
theorem formatFileInfo_exact_witness :
    (-2 ^ 63 ≤ ({ helloInfo false with size := -42 } : EntryInfo).size) ∧
      (({ helloInfo false with size := -42 } : EntryInfo).size < 2 ^ 63) ∧
      FormatFileInfo { helloInfo false with size := -42 } =
        some "-rw-r--r-- -42 1970-01-01 12:00:00 hello.txt".toList := by
  refine ⟨by decide, by decide, ?_⟩
  rw [formatFileInfo_exact.1 { helloInfo false with size := -42 } (by decide) (by decide)]
  decide

/-! ## The callback, one call at a time -/

section Step

variable {σ : Type} (os : OS σ) (bin : SrcFS) (src root trg : Str)

theorem write_walkErr (st : XState σ) (c : WalkCall) (e : Err) (h : c.walkErr = some e) :
    write os bin src root trg st c = (st, Ret.nil) := by
  simp [write, h]

theorem write_nil_info (st : XState σ) (c : WalkCall) (f : FileInfo) (h : c.walkErr = none)
    (hstat : os.stat st.world (destPath src root trg c.unix) = .ok f)
    (hsrc : bin.stat c.unix = none) :
    write os bin src root trg st c =
      ({ st with fns := mapSet st.fns (relKey src c.unix) (destPath src root trg c.unix) },
        Ret.panic) := by
  simp [write, h, hstat, hsrc]

theorem write_fresh (st : XState σ) (c : WalkCall) (f ei : FileInfo) (h : c.walkErr = none)
    (hstat : os.stat st.world (destPath src root trg c.unix) = .ok f)
    (hsrc : bin.stat c.unix = some ei)
    (hfresh : ei.modTime ≤ f.modTime) :
    write os bin src root trg st c =
      ({ st with fns := mapSet st.fns (relKey src c.unix) (destPath src root trg c.unix) },
        Ret.nil) := by
  simp [write, h, hstat, hsrc, hfresh]

theorem write_dir_exists (st : XState σ) (c : WalkCall) (f ei : FileInfo)
    (h : c.walkErr = none) (hdir : c.isDir = true)
    (hstat : os.stat st.world (destPath src root trg c.unix) = .ok f)
    (hsrc : bin.stat c.unix = some ei) :
    write os bin src root trg st c =
      ({ st with fns := mapSet st.fns (relKey src c.unix) (destPath src root trg c.unix) },
        Ret.nil) := by
  by_cases hfresh : ei.modTime ≤ f.modTime
  · exact write_fresh os bin src root trg st c f ei h hstat hsrc hfresh
  · simp [write, h, hstat, hsrc, hfresh, hdir]

theorem write_dir_missing (st : XState σ) (c : WalkCall) (e0 : Err)
    (h : c.walkErr = none) (hdir : c.isDir = true)
    (hstat : os.stat st.world (destPath src root trg c.unix) = .error e0) :
    write os bin src root trg st c =
      if e0.isNotExist = true then
        ({ world := (os.mkdirAll st.world (destPath src root trg c.unix)).1,
           fns := mapSet st.fns (relKey src c.unix) (destPath src root trg c.unix),
           report := st.report,
           log := st.log ++ [Action.mkdirAll (destPath src root trg c.unix)] },
         Ret.ofErr (os.mkdirAll st.world (destPath src root trg c.unix)).2)
      else
        ({ st with fns := mapSet st.fns (relKey src c.unix) (destPath src root trg c.unix) },
          Ret.err e0) := by
  cases hne : e0.isNotExist <;> simp [write, h, hstat, hdir, hne]

/-- The part of the callback that copies a file (lines 79-99), reached when the
entry is a file whose destination is missing or older than the source. -/
theorem write_file (st : XState σ) (c : WalkCall) (h : c.walkErr = none)
    (hdir : c.isDir = false)
    (hgo : ∀ f, os.stat st.world (destPath src root trg c.unix) = .ok f →
      ∃ ei, bin.stat c.unix = some ei ∧ f.modTime < ei.modTime) :
    write os bin src root trg st c =
      match bin.readFile c.unix with
      | .error e =>
        ({ world := st.world,
           fns := mapSet st.fns (relKey src c.unix) (destPath src root trg c.unix),
           report := st.report,
           log := st.log ++ [Action.readFile c.unix] }, Ret.err e)
      | .ok bytes =>
        match (os.writeFile st.world (destPath src root trg c.unix) bytes).2 with
        | some e =>
          ({ world := (os.writeFile st.world (destPath src root trg c.unix) bytes).1,
             fns := mapSet st.fns (relKey src c.unix) (destPath src root trg c.unix),
             report := st.report,
             log := st.log ++ [Action.readFile c.unix] ++
               [Action.writeFile (destPath src root trg c.unix) bytes] }, Ret.err e)
        | none =>
          match os.stat (os.writeFile st.world (destPath src root trg c.unix) bytes).1
              (destPath src root trg c.unix) with
          | .error e =>
            ({ world := (os.writeFile st.world (destPath src root trg c.unix) bytes).1,
               fns := mapSet st.fns (relKey src c.unix) (destPath src root trg c.unix),
               report := st.report,
               log := st.log ++ [Action.readFile c.unix] ++
                 [Action.writeFile (destPath src root trg c.unix) bytes] }, Ret.err e)
          | .ok fi =>
            if (bytes.length : Int) ≠ fi.size then
              ({ world := (os.writeFile st.world (destPath src root trg c.unix) bytes).1,
                 fns := mapSet st.fns (relKey src c.unix) (destPath src root trg c.unix),
                 report := st.report,
                 log := st.log ++ [Action.readFile c.unix] ++
                   [Action.writeFile (destPath src root trg c.unix) bytes] },
               Ret.err (Err.sizeMismatch (destPath src root trg c.unix) bytes.length fi.size))
            else
              match bin.stat c.unix with
              | none =>
                ({ world := (os.writeFile st.world (destPath src root trg c.unix) bytes).1,
                   fns := mapSet st.fns (relKey src c.unix) (destPath src root trg c.unix),
                   report := st.report,
                   log := st.log ++ [Action.readFile c.unix] ++
                     [Action.writeFile (destPath src root trg c.unix) bytes] }, Ret.panic)
              | some ei =>
                ({ world := (os.chtimes
                     (os.writeFile st.world (destPath src root trg c.unix) bytes).1
                     (destPath src root trg c.unix) ei.modTime).1,
                   fns := mapSet st.fns (relKey src c.unix) (destPath src root trg c.unix),
                   report := st.report ++ [⟨ei.modTime, ei.size, c.unix,
                     (match os.stat st.world (destPath src root trg c.unix) with
                      | .ok f => some (f.modTime, f.size)
                      | .error _ => none),
                     destPath src root trg c.unix⟩],
                   log := st.log ++ [Action.readFile c.unix] ++
                     [Action.writeFile (destPath src root trg c.unix) bytes] ++
                     [Action.chtimes (destPath src root trg c.unix) ei.modTime] },
                 Ret.nil) := by
  unfold write
  simp only [h, hdir]
  cases hs : os.stat st.world (destPath src root trg c.unix) with
  | ok f =>
    obtain ⟨ei, hei, hlt⟩ := hgo f hs
    have hnf : ¬ ei.modTime ≤ f.modTime := not_le.mpr hlt
    simp only [hei, ge_iff_le, hnf, if_false]
    cases hr : bin.readFile c.unix with
    | error e => simp
    | ok bytes =>
      simp only []
      cases hwr : (os.writeFile st.world (destPath src root trg c.unix) bytes).2 with
      | some e => simp
      | none =>
        simp only []
        cases hs2 : os.stat (os.writeFile st.world (destPath src root trg c.unix) bytes).1
            (destPath src root trg c.unix) with
        | error e => simp
        | ok fi =>
          by_cases hsz : (bytes.length : Int) = fi.size <;> simp [hsz]
  | error e0 =>
    simp only []
    cases hr : bin.readFile c.unix with
    | error e => simp
    | ok bytes =>
      simp only []
      cases hwr : (os.writeFile st.world (destPath src root trg c.unix) bytes).2 with
      | some e => simp
      | none =>
        simp only []
        cases hs2 : os.stat (os.writeFile st.world (destPath src root trg c.unix) bytes).1
            (destPath src root trg c.unix) with
        | error e => simp
        | ok fi =>
          by_cases hsz : (bytes.length : Int) = fi.size
          · cases hsrc : bin.stat c.unix <;> simp [hsz]
          · simp [hsz]
theorem write_head_cases (st : XState σ) (c : WalkCall) :
    (∃ f, os.stat st.world (destPath src root trg c.unix) = .ok f ∧ bin.stat c.unix = none) ∨
    (∃ f ei, os.stat st.world (destPath src root trg c.unix) = .ok f ∧
      bin.stat c.unix = some ei ∧ ei.modTime ≤ f.modTime) ∨
    (∀ f, os.stat st.world (destPath src root trg c.unix) = .ok f →
      ∃ ei, bin.stat c.unix = some ei ∧ f.modTime < ei.modTime) := by
  cases hs : os.stat st.world (destPath src root trg c.unix) with
  | error e0 =>
    right; right
    intro f hf
    cases hf
  | ok f =>
    cases hsrc : bin.stat c.unix with
    | none => exact Or.inl ⟨f, rfl, rfl⟩
    | some ei =>
      by_cases hle : ei.modTime ≤ f.modTime
      · exact Or.inr (Or.inl ⟨f, ei, rfl, rfl, hle⟩)
      · right; right
        intro f1 hf1
        cases hf1
        exact ⟨ei, rfl, not_le.mp hle⟩

theorem write_fns (st : XState σ) (c : WalkCall) :
    (write os bin src root trg st c).1.fns =
      if c.walkErr = none then
        mapSet st.fns (relKey src c.unix) (destPath src root trg c.unix)
      else st.fns := by
  cases hw : c.walkErr with
  | some e => simp [write_walkErr os bin src root trg st c e hw]
  | none =>
    simp only [if_true]
    rcases write_head_cases os bin src root trg st c with ⟨f, hs, hn⟩ | ⟨f, ei, hs, he, hle⟩ | hgo
    · rw [write_nil_info os bin src root trg st c f hw hs hn]
    · rw [write_fresh os bin src root trg st c f ei hw hs he hle]
    · cases hd : c.isDir with
      | true =>
        cases hs : os.stat st.world (destPath src root trg c.unix) with
        | ok f =>
          obtain ⟨ei, he, _⟩ := hgo f hs
          rw [write_dir_exists os bin src root trg st c f ei hw hd hs he]
        | error e0 =>
          rw [write_dir_missing os bin src root trg st c e0 hw hd hs]
          split <;> rfl
      | false =>
        rw [write_file os bin src root trg st c hw hd hgo]
        repeat' split
        all_goals rfl

theorem write_cases (st : XState σ) (c : WalkCall) :
    write os bin src root trg st c = (st, Ret.nil) ∨
    (∃ r, write os bin src root trg st c =
      ({ st with fns := mapSet st.fns (relKey src c.unix) (destPath src root trg c.unix) },
        r)) ∨
    (∃ w r, write os bin src root trg st c =
      ({ world := w,
         fns := mapSet st.fns (relKey src c.unix) (destPath src root trg c.unix),
         report := st.report,
         log := st.log ++ [Action.mkdirAll (destPath src root trg c.unix)] }, r)) ∨
    (∃ e, write os bin src root trg st c =
      ({ world := st.world,
         fns := mapSet st.fns (relKey src c.unix) (destPath src root trg c.unix),
         report := st.report,
         log := st.log ++ [Action.readFile c.unix] }, Ret.err e)) ∨
    (∃ w b r, r ≠ Ret.nil ∧ write os bin src root trg st c =
      ({ world := w,
         fns := mapSet st.fns (relKey src c.unix) (destPath src root trg c.unix),
         report := st.report,
         log := st.log ++ [Action.readFile c.unix] ++
           [Action.writeFile (destPath src root trg c.unix) b] }, r)) ∨
    (∃ w b l t, write os bin src root trg st c =
      ({ world := w,
         fns := mapSet st.fns (relKey src c.unix) (destPath src root trg c.unix),
         report := st.report ++ [l],
         log := st.log ++ [Action.readFile c.unix] ++
           [Action.writeFile (destPath src root trg c.unix) b] ++
           [Action.chtimes (destPath src root trg c.unix) t] }, Ret.nil)) := by
  cases hw : c.walkErr with
  | some e1 =>
    left
    exact write_walkErr os bin src root trg st c e1 hw
  | none =>
    right
    rcases write_head_cases os bin src root trg st c with ⟨f, hs, hn⟩ | ⟨f, ei, hs, he, hle⟩ | hgo
    · left
      exact ⟨_, write_nil_info os bin src root trg st c f hw hs hn⟩
    · left
      exact ⟨_, write_fresh os bin src root trg st c f ei hw hs he hle⟩
    · cases hd : c.isDir with
      | true =>
        cases hs : os.stat st.world (destPath src root trg c.unix) with
        | ok f =>
          obtain ⟨ei, he, _⟩ := hgo f hs
          left
          exact ⟨_, write_dir_exists os bin src root trg st c f ei hw hd hs he⟩
        | error e0 =>
          have hm := write_dir_missing os bin src root trg st c e0 hw hd hs
          by_cases hne : e0.isNotExist = true
          · rw [if_pos hne] at hm
            right; left
            exact ⟨_, _, hm⟩
          · rw [if_neg hne] at hm
            left
            exact ⟨_, hm⟩
      | false =>
        right; right
        have hf := write_file os bin src root trg st c hw hd hgo
        cases hr : bin.readFile c.unix with
        | error e =>
          rw [hr] at hf
          left
          exact ⟨e, hf⟩
        | ok bytes =>
          rw [hr] at hf
          simp only at hf
          right
          cases hwr : (os.writeFile st.world (destPath src root trg c.unix) bytes).2 with
          | some e =>
            rw [hwr] at hf
            left
            exact ⟨_, bytes, Ret.err e, by simp, hf⟩
          | none =>
            rw [hwr] at hf
            simp only at hf
            cases hs2 : os.stat (os.writeFile st.world (destPath src root trg c.unix) bytes).1
                (destPath src root trg c.unix) with
            | error e =>
              rw [hs2] at hf
              left
              exact ⟨_, bytes, Ret.err e, by simp, hf⟩
            | ok fi =>
              rw [hs2] at hf
              simp only at hf
              by_cases hsz : (bytes.length : Int) = fi.size
              · rw [if_neg (not_not.mpr hsz)] at hf
                cases hsrc : bin.stat c.unix with
                | none =>
                  rw [hsrc] at hf
                  left
                  exact ⟨_, bytes, Ret.panic, by simp, hf⟩
                | some ei =>
                  rw [hsrc] at hf
                  right
                  exact ⟨_, bytes, _, _, hf⟩
              · rw [if_pos hsz] at hf
                left
                exact ⟨_, bytes, Ret.err _, by simp, hf⟩

theorem write_file_log (st : XState σ) (c : WalkCall) (h : c.walkErr = none)
    (hdir : c.isDir = false)
    (hgo : ∀ f, os.stat st.world (destPath src root trg c.unix) = .ok f →
      ∃ ei, bin.stat c.unix = some ei ∧ f.modTime < ei.modTime) :
    ∃ tl, (write os bin src root trg st c).1.log = st.log ++ Action.readFile c.unix :: tl := by
  rw [write_file os bin src root trg st c h hdir hgo]
  repeat' split
  all_goals simp

theorem write_error_cause (st : XState σ) (c : WalkCall) (e : Err)
    (h : (write os bin src root trg st c).2 = Ret.err e) :
    Cause os bin src root trg st c e := by
  unfold Cause
  cases hw : c.walkErr with
  | some e1 =>
    rw [write_walkErr os bin src root trg st c e1 hw] at h
    cases h
  | none =>
    refine ⟨rfl, ?_⟩
    rcases write_head_cases os bin src root trg st c with ⟨f, hs, hn⟩ | ⟨f, ei, hs, he, hle⟩ | hgo
    · rw [write_nil_info os bin src root trg st c f hw hs hn] at h
      cases h
    · rw [write_fresh os bin src root trg st c f ei hw hs he hle] at h
      cases h
    · cases hd : c.isDir with
      | true =>
        cases hs : os.stat st.world (destPath src root trg c.unix) with
        | ok f =>
          obtain ⟨ei, he, _⟩ := hgo f hs
          rw [write_dir_exists os bin src root trg st c f ei hw hd hs he] at h
          cases h
        | error e0 =>
          rw [write_dir_missing os bin src root trg st c e0 hw hd hs] at h
          cases hne : e0.isNotExist with
          | true =>
            have : e0 = Err.notExist := by
              cases e0 <;> simp [Err.isNotExist] at hne ⊢
            subst this
            simp only [Err.isNotExist, if_true] at h
            right; left
            refine ⟨rfl, rfl, ?_⟩
            cases hm : (os.mkdirAll st.world (destPath src root trg c.unix)).2 with
            | none => rw [hm] at h; cases h
            | some e1 =>
              rw [hm] at h
              simp only [Ret.ofErr] at h
              cases h
              rfl
          | false =>
            rw [hne] at h
            simp only [Bool.false_eq_true, if_false] at h
            cases h
            left
            exact ⟨rfl, rfl, hne⟩
      | false =>
        right; right
        have hf := write_file os bin src root trg st c hw hd hgo
        cases hr : bin.readFile c.unix with
        | error e1 =>
          rw [hr] at hf
          rw [hf] at h
          cases h
          left
          exact ⟨rfl, rfl⟩
        | ok bytes =>
          rw [hr] at hf
          simp only at hf
          right
          refine ⟨rfl, bytes, rfl, ?_⟩
          cases hwr : (os.writeFile st.world (destPath src root trg c.unix) bytes).2 with
          | some e1 =>
            rw [hwr] at hf
            rw [hf] at h
            cases h
            left; rfl
          | none =>
            rw [hwr] at hf
            simp only at hf
            right
            refine ⟨rfl, ?_⟩
            cases hs2 : os.stat (os.writeFile st.world (destPath src root trg c.unix) bytes).1
                (destPath src root trg c.unix) with
            | error e1 =>
              rw [hs2] at hf
              rw [hf] at h
              cases h
              left; rfl
            | ok fi =>
              rw [hs2] at hf
              simp only at hf
              right
              by_cases hsz : (bytes.length : Int) = fi.size
              · rw [if_neg (not_not.mpr hsz)] at hf
                cases hsrc : bin.stat c.unix with
                | none =>
                  rw [hsrc] at hf
                  rw [hf] at h
                  cases h
                | some ei =>
                  rw [hsrc] at hf
                  rw [hf] at h
                  cases h
              · rw [if_pos hsz] at hf
                rw [hf] at h
                cases h
                exact ⟨fi, rfl, hsz, rfl⟩

theorem write_fresh_no_error (st : XState σ) (c : WalkCall) (f ei : FileInfo)
    (hstat : os.stat st.world (destPath src root trg c.unix) = .ok f)
    (hsrc : bin.stat c.unix = some ei)
    (hfresh : ei.modTime ≤ f.modTime) :
    (write os bin src root trg st c).2 = Ret.nil := by
  cases hw : c.walkErr with
  | some e => rw [write_walkErr os bin src root trg st c e hw]
  | none => rw [write_fresh os bin src root trg st c f ei hw hstat hsrc hfresh]

theorem walkDir_cons_ok (fn : XState σ → WalkCall → XState σ × Ret)
    (st : XState σ) (c : WalkCall) (cs : List WalkCall) (h : (fn st c).2 = Ret.nil) :
    walkDir fn st (c :: cs) = walkDir fn (fn st c).1 cs := by
  rw [walkDir]
  cases hr : fn st c with
  | mk st1 r =>
    rw [hr] at h
    simp at h
    subst h
    rfl

theorem walkDir_cons_stop (fn : XState σ → WalkCall → XState σ × Ret)
    (st : XState σ) (c : WalkCall) (cs : List WalkCall) (h : (fn st c).2 ≠ Ret.nil) :
    walkDir fn st (c :: cs) = fn st c := by
  rw [walkDir]
  cases hr : fn st c with
  | mk st1 r =>
    rw [hr] at h
    cases r with
    | nil => exact absurd rfl h
    | err e => rfl
    | panic => rfl

theorem walkDir_append_stop (fn : XState σ → WalkCall → XState σ × Ret)
    (pre : List WalkCall) :
    ∀ (st0 st : XState σ) (c : WalkCall) (post : List WalkCall),
      walkDir fn st0 pre = (st, Ret.nil) → (fn st c).2 ≠ Ret.nil →
      walkDir fn st0 (pre ++ c :: post) = fn st c := by
  induction pre with
  | nil =>
    intro st0 st c post hpre hfail
    simp [walkDir] at hpre
    subst hpre
    exact walkDir_cons_stop fn st0 c post hfail
  | cons d ds ih =>
    intro st0 st c post hpre hfail
    by_cases hd : (fn st0 d).2 = Ret.nil
    · rw [walkDir_cons_ok fn st0 d ds hd] at hpre
      rw [List.cons_append, walkDir_cons_ok fn st0 d _ hd]
      exact ih _ st c post hpre hfail
    · rw [walkDir_cons_stop fn st0 d ds hd] at hpre
      rw [hpre] at hd
      exact absurd rfl hd

end Step

/-! ## The walk as a whole -/

section Walk

variable {σ : Type}

theorem walkDir_stop_split (fn : XState σ → WalkCall → XState σ × Ret)
    (cs : List WalkCall) :
    ∀ (st0 st1 : XState σ) (r : Ret), r ≠ Ret.nil → walkDir fn st0 cs = (st1, r) →
      ∃ pre c post st, cs = pre ++ c :: post ∧ walkDir fn st0 pre = (st, Ret.nil) ∧
        fn st c = (st1, r) := by
  induction cs with
  | nil =>
    intro st0 st1 r hr h
    simp [walkDir] at h
    exact absurd h.2.symm hr
  | cons d ds ih =>
    intro st0 st1 r hr h
    by_cases hd : (fn st0 d).2 = Ret.nil
    · rw [walkDir_cons_ok fn st0 d ds hd] at h
      obtain ⟨pre, c, post, st, hcs, hpre, hc⟩ := ih _ st1 r hr h
      refine ⟨d :: pre, c, post, st, by rw [hcs]; rfl, ?_, hc⟩
      rw [walkDir_cons_ok fn st0 d pre hd]
      exact hpre
    · rw [walkDir_cons_stop fn st0 d ds hd] at h
      exact ⟨[], d, ds, st0, rfl, rfl, h⟩

theorem walkDir_invariant (fn : XState σ → WalkCall → XState σ × Ret)
    (P : XState σ → Prop) (hstep : ∀ st c, P st → P (fn st c).1) (cs : List WalkCall) :
    ∀ st, P st → P (walkDir fn st cs).1 := by
  induction cs with
  | nil =>
    intro st h
    simpa [walkDir] using h
  | cons d ds ih =>
    intro st h
    by_cases hd : (fn st d).2 = Ret.nil
    · rw [walkDir_cons_ok fn st d ds hd]
      exact ih _ (hstep st d h)
    · rw [walkDir_cons_stop fn st d ds hd]
      exact hstep st d h

theorem walkDir_invariant_ok (fn : XState σ → WalkCall → XState σ × Ret)
    (Q : XState σ → Prop) (hstep : ∀ st c, Q st → (fn st c).2 = Ret.nil → Q (fn st c).1)
    (cs : List WalkCall) :
    ∀ st st1, Q st → walkDir fn st cs = (st1, Ret.nil) → Q st1 := by
  induction cs with
  | nil =>
    intro st st1 h hw
    simp [walkDir] at hw
    rw [← hw]
    exact h
  | cons d ds ih =>
    intro st st1 h hw
    by_cases hd : (fn st d).2 = Ret.nil
    · rw [walkDir_cons_ok fn st d ds hd] at hw
      exact ih _ st1 (hstep st d h hd) hw
    · rw [walkDir_cons_stop fn st d ds hd] at hw
      rw [hw] at hd
      exact absurd rfl hd

end Walk

section Counts

variable {σ : Type} (os : OS σ) (bin : SrcFS) (src root trg : Str)

theorem write_stop_report (st : XState σ) (c : WalkCall)
    (h : (write os bin src root trg st c).2 ≠ Ret.nil) :
    (write os bin src root trg st c).1.report = st.report := by
  rcases write_cases os bin src root trg st c with h1 | ⟨r, h1⟩ | ⟨w, r, h1⟩ |
    ⟨e1, h1⟩ | ⟨w, b, r, _, h1⟩ | ⟨w, b, l, t, h1⟩
  all_goals rw [h1] at h ⊢
  all_goals simp_all

theorem write_chtimes_count (st : XState σ) (c : WalkCall)
    (h : st.report.length = st.log.countP Action.isChtimes) :
    (write os bin src root trg st c).1.report.length =
      (write os bin src root trg st c).1.log.countP Action.isChtimes := by
  rcases write_cases os bin src root trg st c with h1 | ⟨r, h1⟩ | ⟨w, r, h1⟩ |
    ⟨e1, h1⟩ | ⟨w, b, r, _, h1⟩ | ⟨w, b, l, t, h1⟩ <;> rw [h1] <;>
    simp_all [List.countP_append, Action.isChtimes]

theorem write_write_count (st : XState σ) (c : WalkCall)
    (h : st.report.length = st.log.countP Action.isWrite)
    (hok : (write os bin src root trg st c).2 = Ret.nil) :
    (write os bin src root trg st c).1.report.length =
      (write os bin src root trg st c).1.log.countP Action.isWrite := by
  rcases write_cases os bin src root trg st c with h1 | ⟨r, h1⟩ | ⟨w, r, h1⟩ |
    ⟨e1, h1⟩ | ⟨w, b, r, hr, h1⟩ | ⟨w, b, l, t, h1⟩ <;> rw [h1] at hok ⊢ <;>
    simp_all [List.countP_append, Action.isWrite]

theorem write_write_count_le (st : XState σ) (c : WalkCall) :
    (write os bin src root trg st c).1.log.countP Action.isWrite ≤
      st.log.countP Action.isWrite + 1 := by
  rcases write_cases os bin src root trg st c with h1 | ⟨r, h1⟩ | ⟨w, r, h1⟩ |
    ⟨e1, h1⟩ | ⟨w, b, r, _, h1⟩ | ⟨w, b, l, t, h1⟩ <;> rw [h1] <;>
    simp [List.countP_append, Action.isWrite]

end Counts

section Keys

variable {σ : Type} (os : OS σ) (bin : SrcFS) (src root trg : Str)

theorem mem_keys_mapSet (m : List (Str × Str)) (k v k1 : Str) :
    k1 ∈ (mapSet m k v).map Prod.fst ↔ k1 = k ∨ k1 ∈ m.map Prod.fst := by
  unfold mapSet
  simp only [List.map_cons, List.mem_cons, List.mem_map, List.mem_filter]
  constructor
  · rintro (h | ⟨a, ⟨ha, _⟩, rfl⟩)
    · exact Or.inl h
    · exact Or.inr ⟨a, ha, rfl⟩
  · rintro (h | ⟨a, ha, rfl⟩)
    · exact Or.inl h
    · by_cases hk : a.1 = k
      · exact Or.inl hk
      · exact Or.inr ⟨a, ⟨ha, by simpa using hk⟩, rfl⟩

theorem write_keys_mono (st : XState σ) (c : WalkCall) (k : Str)
    (h : k ∈ st.fns.map Prod.fst) :
    k ∈ (write os bin src root trg st c).1.fns.map Prod.fst := by
  rw [write_fns]
  split
  · exact (mem_keys_mapSet _ _ _ _).mpr (Or.inr h)
  · exact h

theorem write_key_mem (st : XState σ) (c : WalkCall) (h : c.walkErr = none) :
    relKey src c.unix ∈ (write os bin src root trg st c).1.fns.map Prod.fst := by
  rw [write_fns, if_pos h]
  exact (mem_keys_mapSet _ _ _ _).mpr (Or.inl rfl)

theorem walkDir_keys (cs : List WalkCall) :
    ∀ st st1 : XState σ, walkDir (write os bin src root trg) st cs = (st1, Ret.nil) →
      (∀ k ∈ st.fns.map Prod.fst, k ∈ st1.fns.map Prod.fst) ∧
      ∀ d ∈ cs, d.walkErr = none → relKey src d.unix ∈ st1.fns.map Prod.fst := by
  induction cs with
  | nil =>
    intro st st1 h
    simp [walkDir] at h
    subst h
    simp
  | cons c cs ih =>
    intro st st1 h
    by_cases hc : (write os bin src root trg st c).2 = Ret.nil
    · rw [walkDir_cons_ok _ st c cs hc] at h
      obtain ⟨hmono, hmem⟩ := ih _ st1 h
      constructor
      · intro k hk
        exact hmono k (write_keys_mono os bin src root trg st c k hk)
      · intro d hd hw
        rcases List.mem_cons.mp hd with rfl | hd
        · exact hmono _ (write_key_mem os bin src root trg st d hw)
        · exact hmem d hd hw
    · rw [walkDir_cons_stop _ st c cs hc] at h
      rw [h] at hc
      exact absurd rfl hc

end Keys

section MapLemmas

variable {σ : Type} (os : OS σ) (bin : SrcFS) (src root trg : Str)

theorem trimPrefix_of_isPrefixOf (s pre : Str) (h : pre.isPrefixOf s = true) :
    pre ++ trimPrefix s pre = s := by
  have hp : pre <+: s := List.isPrefixOf_iff_prefix.mp h
  obtain ⟨t, rfl⟩ := hp
  simp [trimPrefix, h]

theorem trimPrefix_of_not (s pre : Str) (h : ¬ pre.isPrefixOf s = true) :
    trimPrefix s pre = s := by
  simp [trimPrefix, h]

theorem relKey_injOn (vs : List Str)
    (hnest : ∀ p ∈ vs, ¬ (normSrc src ++ ['/']).isPrefixOf p = true →
      (normSrc src ++ ['/']) ++ p ∉ vs) :
    ∀ p ∈ vs, ∀ q ∈ vs, relKey src p = relKey src q → p = q := by
  intro p hp q hq hk
  unfold relKey at hk
  by_cases h1 : (normSrc src ++ ['/']).isPrefixOf p = true
  · by_cases h2 : (normSrc src ++ ['/']).isPrefixOf q = true
    · rw [← trimPrefix_of_isPrefixOf p _ h1, ← trimPrefix_of_isPrefixOf q _ h2, hk]
    · rw [trimPrefix_of_not q _ h2] at hk
      have := trimPrefix_of_isPrefixOf p _ h1
      rw [hk] at this
      exact absurd (this ▸ hp) (hnest q hq h2)
  · by_cases h2 : (normSrc src ++ ['/']).isPrefixOf q = true
    · rw [trimPrefix_of_not p _ h1] at hk
      have := trimPrefix_of_isPrefixOf q _ h2
      rw [← hk] at this
      exact absurd (this ▸ hq) (hnest p hp h1)
    · rw [trimPrefix_of_not p _ h1, trimPrefix_of_not q _ h2] at hk
      exact hk

theorem mapSet_keys_nodup (m : List (Str × Str)) (k v : Str) (h : (m.map Prod.fst).Nodup) :
    ((mapSet m k v).map Prod.fst).Nodup := by
  unfold mapSet
  rw [List.map_cons, List.nodup_cons]
  constructor
  · intro hk
    obtain ⟨a, ha, hak⟩ := List.mem_map.mp hk
    have := (List.mem_filter.mp ha).2
    simp at this
    exact this hak
  · exact (List.filter_sublist m).map Prod.fst |>.nodup h

theorem lookup_filter_ne (m : List (Str × Str)) (k k1 : Str) (h : k1 ≠ k) :
    (m.filter (fun kv => decide (kv.1 ≠ k))).lookup k1 = m.lookup k1 := by
  induction m with
  | nil => rfl
  | cons a m ih =>
    obtain ⟨a1, a2⟩ := a
    simp only [ne_eq, decide_not] at ih ⊢
    by_cases ha : a1 = k
    · subst ha
      have hb : (k1 == a1) = false := by simpa using h
      simp [List.filter_cons, List.lookup, hb, ih]
    · by_cases hk : k1 = a1
      · subst hk
        simp [List.filter_cons, List.lookup, ha]
      · have hb : (k1 == a1) = false := by simpa using hk
        simp [List.filter_cons, List.lookup, hb, ha, ih]

theorem lookup_mapSet_self (m : List (Str × Str)) (k v : Str) :
    (mapSet m k v).lookup k = some v := by
  simp [mapSet, List.lookup]

theorem lookup_mapSet_ne (m : List (Str × Str)) (k v k1 : Str) (h : k1 ≠ k) :
    (mapSet m k v).lookup k1 = m.lookup k1 := by
  have hb : (k1 == k) = false := by simpa using h
  unfold mapSet
  rw [List.lookup, hb]
  exact lookup_filter_ne m k k1 h

theorem foldl_keys_nodup (vs : List Str) :
    ∀ m : List (Str × Str), (m.map Prod.fst).Nodup →
      ((vs.foldl (fun m p => mapSet m (relKey src p) (destPath src root trg p)) m).map
        Prod.fst).Nodup := by
  induction vs with
  | nil => intro m h; exact h
  | cons p vs ih =>
    intro m h
    exact ih _ (mapSet_keys_nodup m _ _ h)

theorem foldl_mem_keys (vs : List Str) :
    ∀ (m : List (Str × Str)) (k : Str),
      k ∈ (vs.foldl (fun m p => mapSet m (relKey src p) (destPath src root trg p)) m).map
          Prod.fst ↔
        k ∈ m.map Prod.fst ∨ ∃ p ∈ vs, relKey src p = k := by
  induction vs with
  | nil => intro m k; simp
  | cons p vs ih =>
    intro m k
    rw [List.foldl_cons, ih, mem_keys_mapSet]
    constructor
    · rintro ((h | h) | ⟨q, hq, hk⟩)
      · exact Or.inr ⟨p, List.mem_cons_self _ _, h.symm⟩
      · exact Or.inl h
      · exact Or.inr ⟨q, List.mem_cons_of_mem _ hq, hk⟩
    · rintro (h | ⟨q, hq, hk⟩)
      · exact Or.inl (Or.inr h)
      · rcases List.mem_cons.mp hq with rfl | hq
        · exact Or.inl (Or.inl hk.symm)
        · exact Or.inr ⟨q, hq, hk⟩

theorem foldl_lookup_ne (vs : List Str) (k : Str) (h : ∀ q ∈ vs, relKey src q ≠ k) :
    ∀ m : List (Str × Str),
      (vs.foldl (fun m p => mapSet m (relKey src p) (destPath src root trg p)) m).lookup k =
        m.lookup k := by
  induction vs with
  | nil => intro m; rfl
  | cons p vs ih =>
    intro m
    rw [List.foldl_cons, ih (fun q hq => h q (List.mem_cons_of_mem _ hq))]
    exact lookup_mapSet_ne m _ _ k (fun e => h p (List.mem_cons_self _ _) e.symm)

theorem foldl_lookup_last (pre post : List Str) (p : Str) (m : List (Str × Str))
    (h : ∀ q ∈ post, relKey src q ≠ relKey src p) :
    ((pre ++ p :: post).foldl
      (fun m p => mapSet m (relKey src p) (destPath src root trg p)) m).lookup (relKey src p) =
      some (destPath src root trg p) := by
  rw [List.foldl_append, List.foldl_cons, foldl_lookup_ne src root trg post _ h]
  exact lookup_mapSet_self _ _ _

/-- The map after a walk is built from the paths visited without walker error. -/
theorem walkDir_fns (cs : List WalkCall) :
    ∀ st : XState σ, (walkDir (write os bin src root trg) st cs).1.fns =
      (((visited (write os bin src root trg) st cs).filter
          (fun c => c.walkErr.isNone)).map (fun c => c.unix)).foldl
        (fun m p => mapSet m (relKey src p) (destPath src root trg p)) st.fns := by
  induction cs with
  | nil => intro st; simp [walkDir, visited]
  | cons c cs ih =>
    intro st
    have hf := write_fns os bin src root trg st c
    by_cases hc : (write os bin src root trg st c).2 = Ret.nil
    · rw [walkDir_cons_ok _ st c cs hc]
      have hv : visited (write os bin src root trg) st (c :: cs) =
          c :: visited (write os bin src root trg) (write os bin src root trg st c).1 cs := by
        rw [visited]
        cases hx : write os bin src root trg st c with
        | mk a b =>
          rw [hx] at hc
          simp at hc
          subst hc
          rfl
      rw [hv, ih, hf]
      cases hw : c.walkErr with
      | none => simp [hw]
      | some e => simp [hw]
    · rw [walkDir_cons_stop _ st c cs hc]
      have hv : visited (write os bin src root trg) st (c :: cs) = [c] := by
        rw [visited]
        cases hx : write os bin src root trg st c with
        | mk a b =>
          rw [hx] at hc
          cases b with
          | nil => exact absurd rfl hc
          | err e => rfl
          | panic => rfl
      rw [hv, hf]
      cases hw : c.walkErr with
      | none => simp [hw]
      | some e => simp [hw]

end MapLemmas

section Idempotence

variable {σ : Type} (os : OS σ) (bin : SrcFS) (src root trg : Str)

end Idempotence

section MemFSLemmas

end MemFSLemmas

/-! ## Freshness -/

/-- C3: when the destination of a walked entry exists with a modification time
greater than or equal to that of the source entry, the callback returns no
error, leaves the destination untouched, makes no call that reads, writes,
creates a directory or sets a time, adds no report line, and the walk goes on
with the next entry; neither the sizes nor the contents are looked at. -/
theorem xcopy_skips_fresh {σ : Type} (os : OS σ) (bin : SrcFS) (src root trg : Str)
    (st : XState σ) (c : WalkCall) (f ei : FileInfo)
    (hstat : os.stat st.world (destPath src root trg c.unix) = .ok f)
    (hsrc : bin.stat c.unix = some ei)
    (hfresh : ei.modTime ≤ f.modTime) :
    (write os bin src root trg st c).2 = Ret.nil ∧
      (write os bin src root trg st c).1.world = st.world ∧
      (write os bin src root trg st c).1.log = st.log ∧
      (write os bin src root trg st c).1.report = st.report ∧
      ∀ rest, walkDir (write os bin src root trg) st (c :: rest) =
        walkDir (write os bin src root trg) (write os bin src root trg st c).1 rest := by
  have key : (write os bin src root trg st c).2 = Ret.nil ∧
      (write os bin src root trg st c).1.world = st.world ∧
      (write os bin src root trg st c).1.log = st.log ∧
      (write os bin src root trg st c).1.report = st.report := by
    cases hw : c.walkErr with
    | some e => simp [write_walkErr os bin src root trg st c e hw]
    | none => simp [write_fresh os bin src root trg st c f ei hw hstat hsrc hfresh]
  exact ⟨key.1, key.2.1, key.2.2.1, key.2.2.2,
    fun rest => walkDir_cons_ok _ st c rest key.1⟩

/-- Witness of C3: the destination file has the modification time of the
source file and another size; nothing is done. -/
theorem xcopy_skips_fresh_witness :
    (memOS (fun n => n)).stat (initState sameTimeMem).world
        (destPath "b".toList "/tmp".toList "".toList fileCall.unix) = .ok ⟨100, 999⟩ ∧
      demoBin.stat fileCall.unix = some ⟨100, 3⟩ ∧
      (⟨100, 3⟩ : FileInfo).modTime ≤ (⟨100, 999⟩ : FileInfo).modTime ∧
      (write (memOS (fun n => n)) demoBin "b".toList "/tmp".toList "".toList
        (initState sameTimeMem) fileCall).2 = Ret.nil ∧
      (write (memOS (fun n => n)) demoBin "b".toList "/tmp".toList "".toList
        (initState sameTimeMem) fileCall).1.log = [] :=
  have h := xcopy_skips_fresh (memOS (fun n => n)) demoBin "b".toList "/tmp".toList "".toList
    (initState sameTimeMem) fileCall ⟨100, 999⟩ ⟨100, 3⟩ rfl rfl (by decide)
  ⟨rfl, rfl, by decide, h.1, h.2.2.1⟩

/-! ## Write verification -/

/-- C8: for a file entry that is copied (its destination is missing or older
than the source, the source was read and the destination written without
error, and the destination could be examined after the write), if the size
then recorded differs from the number of bytes written the callback fails with
the size-mismatch error, adds no report line, does not set the modification
time, and the walk ends there with that error whatever entries follow; if the
sizes are equal the callback returns no error, and with the metadata of the
source entry at hand it returns nil, sets the modification time and adds the
report line of the entry. -/
theorem xcopy_write_verification {σ : Type} (os : OS σ) (bin : SrcFS) (src root trg : Str)
    (st : XState σ) (c : WalkCall) (bytes : Bytes) (fi : FileInfo)
    (h : c.walkErr = none) (hdir : c.isDir = false)
    (hstale : ∀ f, os.stat st.world (destPath src root trg c.unix) = .ok f →
      ∃ ei, bin.stat c.unix = some ei ∧ f.modTime < ei.modTime)
    (hread : bin.readFile c.unix = .ok bytes)
    (hwrite : (os.writeFile st.world (destPath src root trg c.unix) bytes).2 = none)
    (hstat : os.stat (os.writeFile st.world (destPath src root trg c.unix) bytes).1
      (destPath src root trg c.unix) = .ok fi) :
    ((bytes.length : Int) ≠ fi.size →
      (write os bin src root trg st c).2 =
          Ret.err (Err.sizeMismatch (destPath src root trg c.unix) bytes.length fi.size) ∧
        (write os bin src root trg st c).1.report = st.report ∧
        (write os bin src root trg st c).1.world =
          (os.writeFile st.world (destPath src root trg c.unix) bytes).1 ∧
        (write os bin src root trg st c).1.log =
          st.log ++ [Action.readFile c.unix,
            Action.writeFile (destPath src root trg c.unix) bytes] ∧
        ∀ rest, walkDir (write os bin src root trg) st (c :: rest) =
          ((write os bin src root trg st c).1,
            Ret.err (Err.sizeMismatch (destPath src root trg c.unix) bytes.length fi.size))) ∧
    ((bytes.length : Int) = fi.size →
      (∀ e, (write os bin src root trg st c).2 ≠ Ret.err e) ∧
      ∀ ei, bin.stat c.unix = some ei →
        (write os bin src root trg st c).2 = Ret.nil ∧
        (write os bin src root trg st c).1.report.length = st.report.length + 1 ∧
        (write os bin src root trg st c).1.log =
          st.log ++ [Action.readFile c.unix,
            Action.writeFile (destPath src root trg c.unix) bytes,
            Action.chtimes (destPath src root trg c.unix) ei.modTime]) := by
  have hw := write_file os bin src root trg st c h hdir hstale
  rw [hread] at hw
  simp only [hwrite, hstat] at hw
  constructor
  · intro hne
    rw [if_pos hne] at hw
    have he : (write os bin src root trg st c).2 =
        Ret.err (Err.sizeMismatch (destPath src root trg c.unix) bytes.length fi.size) := by
      rw [hw]
    refine ⟨he, by rw [hw], by rw [hw], by rw [hw]; simp, ?_⟩
    intro rest
    rw [walkDir_cons_stop _ st c rest (by rw [he]; simp)]
    rw [← he]
  · intro heq
    rw [if_neg (not_not.mpr heq)] at hw
    constructor
    · intro e
      rw [hw]
      cases bin.stat c.unix <;> simp
    · intro ei hei
      rw [hei] at hw
      refine ⟨by rw [hw], by rw [hw]; simp, by rw [hw]; simp⟩

/-- Witness of C8: on a destination that records no byte of what is written,
the copy of `b/c.txt` (three bytes) fails with the size-mismatch error and the
report stays empty. -/
theorem xcopy_write_verification_witness :
    (write (memOS (fun _ => 0)) demoBin "b".toList "/tmp".toList "".toList
        (initState emptyMem) fileCall).2 =
        Ret.err (Err.sizeMismatch "/tmp/b/c.txt".toList 3 0) ∧
      (write (memOS (fun _ => 0)) demoBin "b".toList "/tmp".toList "".toList
        (initState emptyMem) fileCall).1.report = [] :=
  have h := (xcopy_write_verification (memOS (fun _ => 0)) demoBin "b".toList "/tmp".toList
    "".toList (initState emptyMem) fileCall [1, 2, 3] ⟨1000, 0⟩ (by decide) (by decide)
    (by intro f hf; cases hf) rfl rfl rfl).1
    (by decide)
  ⟨h.1, h.2.1⟩

/-! ## The first error ends the walk -/

/-- C10: when the walk over the entries `pre` succeeds and the callback then
fails with `e` on the entry `c`, `Xcopy` returns `e` itself whatever entries
follow, with the state left by that failing call: the report is the one built
over `pre`, the map is the one built over `pre` with the key of `c` recorded,
it holds the key of every entry of `pre` and of `c` delivered without walker
error, and nothing of the following entries is read, written or recorded.  A
call with a walker error and a freshness skip return no error, so the walk
goes on with the next entry. -/
theorem xcopy_stops_at_first_error {σ : Type} (os : OS σ) (w : σ) (bin : SrcFS)
    (src root trg : Str) (pre : List WalkCall) (c : WalkCall) (st : XState σ) (e : Err)
    (hpre : walkDir (write os bin src root trg) (initState w) pre = (st, Ret.nil))
    (hfail : (write os bin src root trg st c).2 = Ret.err e) :
    (∀ post, bin.walk (normSrc src) = pre ++ c :: post →
      Xcopy os w bin src root trg = ((write os bin src root trg st c).1, Ret.err e)) ∧
    (write os bin src root trg st c).1.report = st.report ∧
    (write os bin src root trg st c).1.fns =
      mapSet st.fns (relKey src c.unix) (destPath src root trg c.unix) ∧
    (∀ d ∈ pre ++ [c], d.walkErr = none →
      relKey src d.unix ∈ (write os bin src root trg st c).1.fns.map Prod.fst) ∧
    (∀ (st0 : XState σ) (c0 : WalkCall) (rest : List WalkCall),
      (c0.walkErr ≠ none ∨
        ∃ f ei, os.stat st0.world (destPath src root trg c0.unix) = .ok f ∧
          bin.stat c0.unix = some ei ∧ ei.modTime ≤ f.modTime) →
        walkDir (write os bin src root trg) st0 (c0 :: rest) =
          walkDir (write os bin src root trg) (write os bin src root trg st0 c0).1 rest) := by
  have hc : c.walkErr = none := (write_error_cause os bin src root trg st c e hfail).1
  have hne : (write os bin src root trg st c).2 ≠ Ret.nil := by rw [hfail]; simp
  refine ⟨?_, write_stop_report os bin src root trg st c hne, ?_, ?_, ?_⟩
  · intro post hwalk
    unfold Xcopy
    rw [hwalk, walkDir_append_stop _ pre (initState w) st c post hpre hne, ← hfail]
  · rw [write_fns, if_pos hc]
  · intro d hd hw
    rcases List.mem_append.mp hd with hd | hd
    · exact write_keys_mono os bin src root trg st c _
        ((walkDir_keys os bin src root trg pre _ st hpre).2 d hd hw)
    · have : d = c := by simpa using hd
      subst this
      exact write_key_mem os bin src root trg st d hw
  · intro st0 c0 rest h
    apply walkDir_cons_ok
    rcases h with h | ⟨f, ei, hs, he, hle⟩
    · cases hw : c0.walkErr with
      | none => exact absurd hw h
      | some e1 => rw [write_walkErr os bin src root trg st0 c0 e1 hw]
    · exact write_fresh_no_error os bin src root trg st0 c0 f ei hs he hle

/-- Witness of C10: on a destination that records no byte of what is written,
the directory `b` is created, the copy of `b/c.txt` fails, and `Xcopy` returns
the size-mismatch error with an empty report and both keys. -/
theorem xcopy_stops_at_first_error_witness :
    Xcopy (memOS (fun _ => 0)) emptyMem demoBin "b".toList "/tmp".toList "".toList =
        ((write (memOS (fun _ => 0)) demoBin "b".toList "/tmp".toList "".toList
          (write (memOS (fun _ => 0)) demoBin "b".toList "/tmp".toList "".toList
            (initState emptyMem) dirCall).1 fileCall).1,
          Ret.err (Err.sizeMismatch "/tmp/b/c.txt".toList 3 0)) ∧
      (Xcopy (memOS (fun _ => 0)) emptyMem demoBin "b".toList "/tmp".toList "".toList).1.report
        = [] ∧
      (Xcopy (memOS (fun _ => 0)) emptyMem demoBin "b".toList "/tmp".toList "".toList).1.fns
        = [("c.txt".toList, "/tmp/b/c.txt".toList), ("b".toList, "/tmp/b".toList)] :=
  have h := xcopy_stops_at_first_error (memOS (fun _ => 0)) emptyMem demoBin "b".toList
    "/tmp".toList "".toList [dirCall] fileCall
    (write (memOS (fun _ => 0)) demoBin "b".toList "/tmp".toList "".toList
      (initState emptyMem) dirCall).1
    (Err.sizeMismatch "/tmp/b/c.txt".toList 3 0) rfl rfl
  ⟨h.1 [] rfl, by decide, by decide⟩

/-! ## Which failures are returned -/

/-- C7 (as amended): when `Xcopy` returns an error, the walk succeeded on the
entries before some entry `c`, delivered without walker error, on which one of
these happened: the destination of a directory could not be examined for a
reason other than not-exist, the creation of a missing directory failed, the
source file could not be read, the destination could not be written, the
destination could not be examined after the write, or the size recorded
differs from the number of bytes written.  For a directory entry, a failure to
examine the destination other than not-exist is returned as it is and nothing
is created; a not-exist failure leads to `os.MkdirAll`, whose result is
returned; and a destination that exists is never created again.  A failure to
examine the destination of a file entry is never the reason of an error: the
callback goes on to read the source, and a copy that succeeds reports an empty
previous state, as for a missing destination. -/
theorem xcopy_error_causes {σ : Type} (os : OS σ) (w : σ) (bin : SrcFS)
    (src root trg : Str) :
    (∀ e, (Xcopy os w bin src root trg).2 = Ret.err e →
      ∃ pre c post st, bin.walk (normSrc src) = pre ++ c :: post ∧
        walkDir (write os bin src root trg) (initState w) pre = (st, Ret.nil) ∧
        (write os bin src root trg st c).2 = Ret.err e ∧
        Cause os bin src root trg st c e) ∧
    (∀ (st : XState σ) (c : WalkCall) (e0 : Err), c.walkErr = none → c.isDir = true →
      os.stat st.world (destPath src root trg c.unix) = .error e0 →
      e0.isNotExist = false →
      write os bin src root trg st c =
        ({ st with fns := mapSet st.fns (relKey src c.unix) (destPath src root trg c.unix) },
          Ret.err e0)) ∧
    (∀ (st : XState σ) (c : WalkCall) (e0 : Err), c.walkErr = none → c.isDir = true →
      os.stat st.world (destPath src root trg c.unix) = .error e0 →
      e0.isNotExist = true →
      write os bin src root trg st c =
        ({ world := (os.mkdirAll st.world (destPath src root trg c.unix)).1,
           fns := mapSet st.fns (relKey src c.unix) (destPath src root trg c.unix),
           report := st.report,
           log := st.log ++ [Action.mkdirAll (destPath src root trg c.unix)] },
         Ret.ofErr (os.mkdirAll st.world (destPath src root trg c.unix)).2)) ∧
    (∀ (st : XState σ) (c : WalkCall) (f : FileInfo), c.isDir = true →
      os.stat st.world (destPath src root trg c.unix) = .ok f →
      (write os bin src root trg st c).1.log = st.log ∧
        (write os bin src root trg st c).1.world = st.world ∧
        ∀ e, (write os bin src root trg st c).2 ≠ Ret.err e) ∧
    (∀ (st : XState σ) (c : WalkCall) (e0 : Err), c.walkErr = none → c.isDir = false →
      os.stat st.world (destPath src root trg c.unix) = .error e0 →
      (∃ tl, (write os bin src root trg st c).1.log =
          st.log ++ Action.readFile c.unix :: tl) ∧
      (∀ e, (write os bin src root trg st c).2 = Ret.err e →
        bin.readFile c.unix = .error e ∨
        ∃ bytes, bin.readFile c.unix = .ok bytes ∧
          ((os.writeFile st.world (destPath src root trg c.unix) bytes).2 = some e ∨
           os.stat (os.writeFile st.world (destPath src root trg c.unix) bytes).1
             (destPath src root trg c.unix) = .error e ∨
           ∃ fi, os.stat (os.writeFile st.world (destPath src root trg c.unix) bytes).1
               (destPath src root trg c.unix) = .ok fi ∧
             (bytes.length : Int) ≠ fi.size ∧
             e = Err.sizeMismatch (destPath src root trg c.unix) bytes.length fi.size)) ∧
      ∀ bytes fi ei, bin.readFile c.unix = .ok bytes →
        (os.writeFile st.world (destPath src root trg c.unix) bytes).2 = none →
        os.stat (os.writeFile st.world (destPath src root trg c.unix) bytes).1
          (destPath src root trg c.unix) = .ok fi →
        (bytes.length : Int) = fi.size → bin.stat c.unix = some ei →
        (write os bin src root trg st c).2 = Ret.nil ∧
          (write os bin src root trg st c).1.report =
            st.report ++ [⟨ei.modTime, ei.size, c.unix, none,
              destPath src root trg c.unix⟩]) := by
  refine ⟨?_, ?_, ?_, ?_, ?_⟩
  · intro e h
    have hx : Xcopy os w bin src root trg = ((Xcopy os w bin src root trg).1, Ret.err e) := by
      rw [← h]
    unfold Xcopy at hx
    obtain ⟨pre, c, post, st, hcs, hpre, hc⟩ := walkDir_stop_split _ _ _ _ _ (by simp) hx
    have hc2 : (write os bin src root trg st c).2 = Ret.err e := by rw [hc]
    exact ⟨pre, c, post, st, hcs, hpre, hc2, write_error_cause os bin src root trg st c e hc2⟩
  · intro st c e0 hw hd hs hne
    rw [write_dir_missing os bin src root trg st c e0 hw hd hs, hne]
    simp
  · intro st c e0 hw hd hs hne
    rw [write_dir_missing os bin src root trg st c e0 hw hd hs, hne]
    simp
  · intro st c f hd hs
    cases hw : c.walkErr with
    | some e1 =>
      rw [write_walkErr os bin src root trg st c e1 hw]
      simp
    | none =>
      cases hsrc : bin.stat c.unix with
      | none =>
        rw [write_nil_info os bin src root trg st c f hw hs hsrc]
        simp
      | some ei =>
        rw [write_dir_exists os bin src root trg st c f ei hw hd hs hsrc]
        simp
  · intro st c e0 hw hd hs
    have hgo : ∀ f, os.stat st.world (destPath src root trg c.unix) = .ok f →
        ∃ ei, bin.stat c.unix = some ei ∧ f.modTime < ei.modTime := by
      intro f hf
      rw [hs] at hf
      cases hf
    refine ⟨write_file_log os bin src root trg st c hw hd hgo, ?_, ?_⟩
    · intro e he
      obtain ⟨_, hc⟩ := write_error_cause os bin src root trg st c e he
      rcases hc with ⟨hd2, _⟩ | ⟨hd2, _⟩ | ⟨_, hr⟩ | ⟨_, bytes, hr, hrest⟩
      · rw [hd] at hd2
        cases hd2
      · rw [hd] at hd2
        cases hd2
      · exact Or.inl hr
      · refine Or.inr ⟨bytes, hr, ?_⟩
        rcases hrest with h1 | ⟨_, h2 | h3⟩
        · exact Or.inl h1
        · exact Or.inr (Or.inl h2)
        · exact Or.inr (Or.inr h3)
    · intro bytes fi ei hr hwr hs2 hsz hei
      have hf := write_file os bin src root trg st c hw hd hgo
      rw [hr] at hf
      simp only [hwr, hs2] at hf
      rw [if_neg (not_not.mpr hsz), hei] at hf
      rw [hf]
      simp only [hs, true_and]

/-- Witness of C7 (as amended): on a destination where nothing can be
examined, the error returned for the directory `b` has a reason, the failure
to examine its destination. -/
theorem xcopy_error_causes_witness :
    (Xcopy deniedOS () demoBin "b".toList "/tmp".toList "".toList).2
        = Ret.err (Err.other 13) ∧
      ∃ pre c post st, demoBin.walk (normSrc "b".toList) = pre ++ c :: post ∧
        walkDir (write deniedOS demoBin "b".toList "/tmp".toList "".toList) (initState ())
          pre = (st, Ret.nil) ∧
        (write deniedOS demoBin "b".toList "/tmp".toList "".toList st c).2
          = Ret.err (Err.other 13) ∧
        Cause deniedOS demoBin "b".toList "/tmp".toList "".toList st c (Err.other 13) :=
  ⟨by decide,
    (xcopy_error_causes deniedOS () demoBin "b".toList "/tmp".toList "".toList).1
      (Err.other 13) (by decide)⟩

/-- C7 (counterexample): on a destination where `os.Stat` fails with
permission denied, `Xcopy` returns that error for the directory `b` although no
directory creation, no read and no write was attempted. -/
theorem xcopy_returns_stat_error_of_directory :
    (Xcopy deniedOS () demoBin "b".toList "/tmp".toList "".toList).2
        = Ret.err (Err.other 13) ∧
      (Xcopy deniedOS () demoBin "b".toList "/tmp".toList "".toList).1.log = [] ∧
      deniedOS.stat () (destPath "b".toList "/tmp".toList "".toList dirCall.unix)
        = .error (Err.other 13) := by
  refine ⟨by decide, by decide, rfl⟩

/-! ## The report -/

/-- C6 (as amended): the number of report lines equals the number of files
whose copy was completed (written, verified and given the modification time of
the source); a created directory and a skipped entry add no line.  When `Xcopy`
returns no error this is the number of files written, and otherwise at most
one written file, the one whose verification failed, has no line. -/
theorem xcopy_report_counts_copied_files {σ : Type} (os : OS σ) (w : σ) (bin : SrcFS)
    (src root trg : Str) :
    (Xcopy os w bin src root trg).1.report.length =
        (Xcopy os w bin src root trg).1.log.countP Action.isChtimes ∧
      ((Xcopy os w bin src root trg).2 = Ret.nil →
        (Xcopy os w bin src root trg).1.report.length =
          (Xcopy os w bin src root trg).1.log.countP Action.isWrite) ∧
      (Xcopy os w bin src root trg).1.log.countP Action.isWrite ≤
        (Xcopy os w bin src root trg).1.report.length + 1 := by
  refine ⟨?_, ?_, ?_⟩
  · unfold Xcopy
    exact walkDir_invariant _ (fun st => st.report.length = st.log.countP Action.isChtimes)
      (fun st c h => write_chtimes_count os bin src root trg st c h)
      (bin.walk (normSrc src)) (initState w) rfl
  · intro h
    have hx : Xcopy os w bin src root trg = ((Xcopy os w bin src root trg).1, Ret.nil) := by
      rw [← h]
    unfold Xcopy at hx
    exact walkDir_invariant_ok _ (fun st => st.report.length = st.log.countP Action.isWrite)
      (fun st c h hok => write_write_count os bin src root trg st c h hok)
        (bin.walk (normSrc src)) (initState w) _ rfl hx
  · by_cases h : (Xcopy os w bin src root trg).2 = Ret.nil
    · have hx : Xcopy os w bin src root trg = ((Xcopy os w bin src root trg).1, Ret.nil) := by
        rw [← h]
      unfold Xcopy at hx
      have := walkDir_invariant_ok _
        (fun st => st.report.length = st.log.countP Action.isWrite)
        (fun st c h hok => write_write_count os bin src root trg st c h hok)
        (bin.walk (normSrc src)) (initState w) _ rfl hx
      unfold Xcopy
      omega
    · have hx : Xcopy os w bin src root trg =
          ((Xcopy os w bin src root trg).1, (Xcopy os w bin src root trg).2) := rfl
      unfold Xcopy at hx h
      obtain ⟨pre, c, post, st, _, hpre, hc⟩ := walkDir_stop_split _ _ _ _ _ h hx
      have hq := walkDir_invariant_ok _
        (fun st => st.report.length = st.log.countP Action.isWrite)
        (fun st c h hok => write_write_count os bin src root trg st c h hok)
        pre (initState w) st rfl hpre
      have h1 := write_write_count_le os bin src root trg st c
      have h2 := write_stop_report os bin src root trg st c (by rw [hc]; exact h)
      rw [hc] at h1 h2
      simp only at h1 h2 hq
      unfold Xcopy
      rw [h2]
      omega

/-- Witness of C6 (as amended): mirroring `b` into an empty destination
returns no error, writes one file and reports one line. -/
theorem xcopy_report_counts_copied_files_witness :
    (Xcopy (memOS (fun n => n)) emptyMem demoBin "b".toList "/tmp".toList "".toList).2
        = Ret.nil ∧
      (Xcopy (memOS (fun n => n)) emptyMem demoBin "b".toList "/tmp".toList
        "".toList).1.report.length =
        (Xcopy (memOS (fun n => n)) emptyMem demoBin "b".toList "/tmp".toList
          "".toList).1.log.countP Action.isWrite :=
  ⟨by decide,
    (xcopy_report_counts_copied_files (memOS (fun n => n)) emptyMem demoBin "b".toList
      "/tmp".toList "".toList).2.1 (by decide)⟩

/-- C6 (counterexample): mirroring `b` into an empty destination creates the
directory `/tmp/b` and writes the file `/tmp/b/c.txt`, two entries, yet the
report has one line. -/
theorem xcopy_created_directory_not_reported :
    (Xcopy (memOS (fun n => n)) emptyMem demoBin "b".toList "/tmp".toList "".toList).1.log =
        [Action.mkdirAll "/tmp/b".toList, Action.readFile "b/c.txt".toList,
          Action.writeFile "/tmp/b/c.txt".toList [1, 2, 3],
          Action.chtimes "/tmp/b/c.txt".toList 100] ∧
      (Xcopy (memOS (fun n => n)) emptyMem demoBin "b".toList "/tmp".toList
        "".toList).1.report.length = 1 ∧
      (Xcopy (memOS (fun n => n)) emptyMem demoBin "b".toList "/tmp".toList
        "".toList).1.log.countP (fun a => a.isMkdir || a.isWrite) = 2 := by
  decide

/-! ## The keys of the map -/

/-- C5 (as amended): after any run of `Xcopy` the map has one key per
distinct relative key of the entries visited without walker error: its keys
are pairwise distinct, they are exactly the relative keys of the visited
paths, their number is the number of distinct relative keys, and each key is
mapped to the destination of the last visited entry that has it.  When the
visited paths are pairwise distinct and none of them is the source prefix, a
separator and then a visited path that does not itself begin with the source
prefix and a separator (for a walk rooted at `src`: there is no entry
`src/src`), two distinct visited paths have distinct keys, the number of keys
is the number of visited entries, and each key is mapped to the destination of
its own entry. -/
theorem xcopy_keys_of_visited {σ : Type} (os : OS σ) (w : σ) (bin : SrcFS)
    (src root trg : Str) :
    ((Xcopy os w bin src root trg).1.fns.map Prod.fst).Nodup ∧
    (∀ k, k ∈ (Xcopy os w bin src root trg).1.fns.map Prod.fst ↔
      ∃ p ∈ visitedPaths os w bin src root trg, relKey src p = k) ∧
    (Xcopy os w bin src root trg).1.fns.length =
      (((visitedPaths os w bin src root trg).map (relKey src)).dedup).length ∧
    (∀ pre p post, visitedPaths os w bin src root trg = pre ++ p :: post →
      (∀ q ∈ post, relKey src q ≠ relKey src p) →
      (Xcopy os w bin src root trg).1.fns.lookup (relKey src p) =
        some (destPath src root trg p)) ∧
    ((visitedPaths os w bin src root trg).Nodup →
      (∀ p ∈ visitedPaths os w bin src root trg,
        ¬ (normSrc src ++ ['/']).isPrefixOf p = true →
          (normSrc src ++ ['/']) ++ p ∉ visitedPaths os w bin src root trg) →
      (∀ p ∈ visitedPaths os w bin src root trg, ∀ q ∈ visitedPaths os w bin src root trg,
        relKey src p = relKey src q → p = q) ∧
      (Xcopy os w bin src root trg).1.fns.length =
        (visitedPaths os w bin src root trg).length ∧
      ∀ p ∈ visitedPaths os w bin src root trg,
        (Xcopy os w bin src root trg).1.fns.lookup (relKey src p) =
          some (destPath src root trg p)) := by
  have hfns : (Xcopy os w bin src root trg).1.fns =
      (visitedPaths os w bin src root trg).foldl
        (fun m p => mapSet m (relKey src p) (destPath src root trg p)) [] := by
    unfold Xcopy visitedPaths
    rw [walkDir_fns os bin src root trg (bin.walk (normSrc src)) (initState w)]
    rfl
  have hnd : ((Xcopy os w bin src root trg).1.fns.map Prod.fst).Nodup := by
    rw [hfns]
    exact foldl_keys_nodup src root trg _ [] List.nodup_nil
  have hmem : ∀ k, k ∈ (Xcopy os w bin src root trg).1.fns.map Prod.fst ↔
      ∃ p ∈ visitedPaths os w bin src root trg, relKey src p = k := by
    intro k
    rw [hfns, foldl_mem_keys]
    simp
  have hlen : (Xcopy os w bin src root trg).1.fns.length =
      (((visitedPaths os w bin src root trg).map (relKey src)).dedup).length := by
    have hp : List.Perm ((Xcopy os w bin src root trg).1.fns.map Prod.fst)
        (((visitedPaths os w bin src root trg).map (relKey src)).dedup) := by
      rw [List.perm_ext_iff_of_nodup hnd (List.nodup_dedup _)]
      intro k
      rw [hmem k, List.mem_dedup, List.mem_map]
    rw [← hp.length_eq, List.length_map]
  have hlast : ∀ pre p post, visitedPaths os w bin src root trg = pre ++ p :: post →
      (∀ q ∈ post, relKey src q ≠ relKey src p) →
      (Xcopy os w bin src root trg).1.fns.lookup (relKey src p) =
        some (destPath src root trg p) := by
    intro pre p post hv hq
    rw [hfns, hv]
    exact foldl_lookup_last src root trg pre post p [] hq
  refine ⟨hnd, hmem, hlen, hlast, ?_⟩
  intro hvnd hnest
  have hinj := relKey_injOn src (visitedPaths os w bin src root trg) hnest
  refine ⟨hinj, ?_, ?_⟩
  · rw [hlen]
    have hkeys : ((visitedPaths os w bin src root trg).map (relKey src)).Nodup :=
      List.Nodup.map_on (fun p hp q hq h => hinj p hp q hq h) hvnd
    rw [hkeys.dedup, List.length_map]
  · intro p hp
    obtain ⟨pre, post, hv⟩ := List.append_of_mem hp
    apply hlast pre p post hv
    intro q hq hk
    have hqm : q ∈ visitedPaths os w bin src root trg := by
      rw [hv]
      exact List.mem_append_right _ (List.mem_cons_of_mem _ hq)
    have hqp := hinj q hqm p hp hk
    subst hqp
    rw [hv] at hvnd
    have := (List.nodup_append.mp hvnd).2.1
    exact (List.nodup_cons.mp this).1 hq

/-- Witness of C5 (as amended): mirroring the directory `b` holding `c.txt`
gives two keys for the two visited entries. -/
theorem xcopy_keys_of_visited_witness :
    (visitedPaths (memOS (fun n => n)) emptyMem demoBin "b".toList "/tmp".toList
        "".toList).Nodup ∧
      (Xcopy (memOS (fun n => n)) emptyMem demoBin "b".toList "/tmp".toList
        "".toList).1.fns.length = 2 ∧
      (Xcopy (memOS (fun n => n)) emptyMem demoBin "b".toList "/tmp".toList
        "".toList).1.fns.lookup (relKey "b".toList "b/c.txt".toList)
        = some "/tmp/b/c.txt".toList :=
  have h := (xcopy_keys_of_visited (memOS (fun n => n)) emptyMem demoBin "b".toList
    "/tmp".toList "".toList).2.2.2.2 (by decide) (by decide)
  ⟨by decide, h.2.1, h.2.2 "b/c.txt".toList (by decide)⟩

/-- C5 (counterexample): in a source where the directory `b` holds an entry
named `b`, the two visited paths `b` and `b/b` have the same key `b`; the map
returned has one key for two visited entries, and the key of the directory is
mapped to the destination of the file. -/
theorem xcopy_nested_name_shares_key :
    visitedPaths (memOS (fun n => n)) emptyMem nestedBin "b".toList "/tmp".toList "".toList
        = ["b".toList, "b/b".toList] ∧
      relKey "b".toList "b".toList = relKey "b".toList "b/b".toList ∧
      (Xcopy (memOS (fun n => n)) emptyMem nestedBin "b".toList "/tmp".toList
        "".toList).1.fns.length = 1 ∧
      (Xcopy (memOS (fun n => n)) emptyMem nestedBin "b".toList "/tmp".toList
        "".toList).1.fns.lookup (relKey "b".toList "b".toList)
        = some "/tmp/b/b".toList ∧
      destPath "b".toList "/tmp".toList "".toList "b".toList = "/tmp/b".toList := by
  decide

/-! ## Idempotence -/

end Encryptedfs
